import Mathlib

/-!
# Verification of the CourseScope telemetry analytics engine

Shallow embedding, in Lean 4 over `ℚ`, of the core analytics functions of the
CourseScope repository:

* `core/grade_table.py` — `GRADE_FACTORS`, `grade_factor`, `MIN_DOWNHILL_FACTOR`;
* `backend/core/real_run_analysis.py` — `compute_moving_mask`, `compute_splits`,
  `compute_best_efforts`, `compute_gap_series`, `compute_climbs`;
* `backend/core/metrics.py` — `_build_zone_table`, the zone tables,
  `_resample_series_1hz`, `_normalized_power_from_series`, and the NP/IF/TSS
  wiring of `compute_garmin_like_stats`.

Modelling conventions:

* Python floats are modelled by `ℚ`; a float `NaN` ("undefined") is modelled by
  `none : Option ℚ`.  All claims under study concern exact arithmetic
  relationships, so rational arithmetic is a faithful model of the float
  computations up to rounding (which the claims themselves exclude).
* NumPy arrays / pandas series are modelled by `List`s (or, for the two-pointer
  best-effort scan, by index functions `ℕ → ℚ` together with a length).
* Quantities that the source computes as real-valued roots (normalized power is
  a fourth root, TSS involves it) are modelled by their fourth/second powers,
  which are rational; the accompanying doc comments record the correspondence.
-/

namespace CourseScope

/-! ## Generic list helpers (models of the pandas/NumPy primitives used) -/

/-- Model of `Series.fillna(0)`: replace missing values by `0`. -/
def fillna0 (l : List (Option ℚ)) : List ℚ :=
  l.map (fun x => x.getD 0)

/-- Model of `np.where(x > 0, x, 0.0)` applied pointwise. -/
def posOrZero (l : List ℚ) : List ℚ :=
  l.map (fun x => if 0 < x then x else 0)

/-- Model of `Series.cummax()` (running maximum), used to enforce monotone
distance. -/
def cummaxGo (acc : ℚ) : List ℚ → List ℚ
  | [] => []
  | x :: xs => max acc x :: cummaxGo (max acc x) xs

/-- `cummax` of a nonempty list starts from its first element, like pandas. -/
def cummax : List ℚ → List ℚ
  | [] => []
  | x :: xs => x :: cummaxGo x xs

/-- Model of `Series.diff().fillna(0.0)`: adjacent differences with a leading
`0` (the first difference is `NaN`, filled with `0`). -/
def diffs0 : List ℚ → List ℚ
  | [] => []
  | x :: xs => 0 :: List.zipWith (fun b a => b - a) xs (x :: xs)

/-- Model of `Series.cumsum()`. -/
def cumsum (l : List ℚ) : List ℚ :=
  (l.scanl (· + ·) 0).tail

/-- Model of `DataFrame.groupby("x").last()` on an already `x`-sorted list of
`(x, y)` pairs: collapse each run of equal `x` keeping the last pair. -/
def groupLast : List (ℚ × ℚ) → List (ℚ × ℚ)
  | [] => []
  | [p] => [p]
  | p :: q :: l => if p.1 = q.1 then groupLast (q :: l) else p :: groupLast (q :: l)

/-- Model of `np.interp` over a table of `(x, y)` pairs with `x` sorted:
clamped piecewise-linear interpolation. -/
def interpQ (x : ℚ) : List (ℚ × ℚ) → ℚ
  | [] => 0
  | [(_, y0)] => y0
  | (x0, y0) :: (x1, y1) :: rest =>
      if x ≤ x0 then y0
      else if x ≤ x1 then y0 + (x - x0) * (y1 - y0) / (x1 - x0)
      else interpQ x ((x1, y1) :: rest)

/-- Sum of a list of rationals (alias kept for readability). -/
def sumQ (l : List ℚ) : ℚ := l.sum

end CourseScope

namespace CourseScope

/-! ## `core/grade_table.py` -/

/-- `GRADE_FACTORS`: multiplicative pace factor per integer grade 0‥10 (%).
Indices above 10 never arise (the input is clipped); they map to the last
table entry, as `np.interp` clamps. -/
def gradeFactorTable : ℕ → ℚ
  | 0 => 1
  | 1 => 1042/1000
  | 2 => 1082/1000
  | 3 => 1120/1000
  | 4 => 1157/1000
  | 5 => 1193/1000
  | 6 => 1228/1000
  | 7 => 1262/1000
  | 8 => 1295/1000
  | 9 => 1327/1000
  | _ => 1358/1000

/-- `MIN_DOWNHILL_FACTOR = 0.70`. -/
def minDownhillFactor : ℚ := 7/10

/-- `np.interp(x, [0..10], factors)` for a clipped argument `x ∈ [0, 10]`:
linear interpolation between the integer grades bracketing `x`. -/
def interpFactors (x : ℚ) : ℚ :=
  if 10 ≤ x then gradeFactorTable 10
  else gradeFactorTable x.floor.toNat * (1 - (x - (x.floor.toNat : ℚ))) +
    gradeFactorTable (x.floor.toNat + 1) * (x - (x.floor.toNat : ℚ))

/-- `grade_factor` on a finite grade (in %): clip `|g|` to `[0, 10]`,
interpolate the table; for `g < 0` use the reciprocal floored at
`MIN_DOWNHILL_FACTOR`.  (A `NaN` grade maps to `NaN`; that case is handled by
the `Option` layer in `gapPoint`.) -/
def gradeFactor (g : ℚ) : ℚ :=
  let ga := min (max |g| 0) 10
  let f := interpFactors ga
  let downhill := max (1 / f) minDownhillFactor
  if 0 ≤ g then f else downhill

/-! ## `compute_gap_series` (`backend/core/real_run_analysis.py:964`) -/

/-- One point of `compute_gap_series`: `gap = pace / factor`, invalidated when
the grade or the pace is `NaN` (hence the factor is `NaN`) or the factor is
zero. -/
def gapPoint (p g : Option ℚ) : Option ℚ :=
  match p, g with
  | some pv, some gv =>
      let f := gradeFactor gv
      if f = 0 then none else some (pv / f)
  | _, _ => none

/-- `compute_gap_series`: pointwise GAP over parallel pace and grade series. -/
def computeGapSeries (pace grade : List (Option ℚ)) : List (Option ℚ) :=
  List.zipWith gapPoint pace grade

end CourseScope

namespace CourseScope

/-! ## Lemmas about the grade table and grade factor -/

lemma gradeFactorTable_bounds (k : ℕ) :
    1 ≤ gradeFactorTable k ∧ gradeFactorTable k ≤ 1358/1000 := by
  rcases k with _|_|_|_|_|_|_|_|_|_|k <;> simp [gradeFactorTable] <;> norm_num

lemma floor_toNat_cast_le {x : ℚ} (hx : 0 ≤ x) : ((x.floor.toNat : ℚ)) ≤ x := by
  have h0 : (0:ℤ) ≤ x.floor := Int.floor_nonneg.mpr hx
  have hc : ((x.floor.toNat : ℤ) : ℚ) = (x.floor : ℚ) := by
    rw [Int.toNat_of_nonneg h0]
  push_cast at hc
  rw [hc]
  exact Int.floor_le x

lemma lt_floor_toNat_add_one {x : ℚ} (hx : 0 ≤ x) : x < (x.floor.toNat : ℚ) + 1 := by
  have h0 : (0:ℤ) ≤ x.floor := Int.floor_nonneg.mpr hx
  have hc : ((x.floor.toNat : ℤ) : ℚ) = (x.floor : ℚ) := by
    rw [Int.toNat_of_nonneg h0]
  push_cast at hc
  rw [hc]
  exact Int.lt_floor_add_one x

lemma interpFactors_bounds (x : ℚ) (hx : 0 ≤ x) :
    1 ≤ interpFactors x ∧ interpFactors x ≤ 1358/1000 := by
  unfold interpFactors
  split_ifs with h
  · constructor <;> norm_num [gradeFactorTable]
  · have hfl : ((x.floor.toNat : ℚ)) ≤ x := floor_toNat_cast_le hx
    have hfu : x < (x.floor.toNat : ℚ) + 1 := lt_floor_toNat_add_one hx
    set l : ℕ := x.floor.toNat with hl
    have hfrac0 : 0 ≤ x - (l : ℚ) := by linarith
    have hfrac1 : x - (l : ℚ) < 1 := by linarith
    obtain ⟨ha1, ha2⟩ := gradeFactorTable_bounds l
    obtain ⟨hb1, hb2⟩ := gradeFactorTable_bounds (l + 1)
    constructor
    · nlinarith
    · nlinarith

lemma interpFactors_pos (x : ℚ) (hx : 0 ≤ x) : 0 < interpFactors x := by
  have := (interpFactors_bounds x hx).1
  linarith

lemma clip_abs_eq (g : ℚ) : min (max |g| 0) 10 = min |g| 10 := by
  rw [max_eq_left (abs_nonneg g)]

lemma clip_abs_nonneg (g : ℚ) : 0 ≤ min (max |g| 0) 10 := by
  rw [clip_abs_eq]
  exact le_min (abs_nonneg g) (by norm_num)

/-- The reciprocal of any uphill factor stays strictly above the configured
downhill floor `0.70`. -/
lemma downhill_floor_not_binding (x : ℚ) (hx : 0 ≤ x) :
    minDownhillFactor < 1 / interpFactors x := by
  obtain ⟨h1, h2⟩ := interpFactors_bounds x hx
  have hp : 0 < interpFactors x := by linarith
  rw [minDownhillFactor, lt_div_iff₀ hp]
  nlinarith

lemma gradeFactor_neg_eq (g : ℚ) (hg : g < 0) :
    gradeFactor g = 1 / interpFactors (min |g| 10) := by
  unfold gradeFactor
  rw [if_neg (not_le.mpr hg), clip_abs_eq]
  exact max_eq_left (le_of_lt (downhill_floor_not_binding _ (le_min (abs_nonneg g) (by norm_num))))

lemma gradeFactor_nonneg_eq (g : ℚ) (hg : 0 ≤ g) :
    gradeFactor g = interpFactors (min g 10) := by
  unfold gradeFactor
  rw [if_pos hg, clip_abs_eq, abs_of_nonneg hg]

lemma gradeFactor_bounds (g : ℚ) :
    500/679 ≤ gradeFactor g ∧ gradeFactor g ≤ 1358/1000 := by
  rcases le_or_lt 0 g with hg | hg
  · rw [gradeFactor_nonneg_eq g hg]
    obtain ⟨h1, h2⟩ := interpFactors_bounds (min g 10) (le_min hg (by norm_num))
    constructor <;> linarith
  · rw [gradeFactor_neg_eq g hg]
    have hcl : 0 ≤ min |g| 10 := le_min (abs_nonneg g) (by norm_num)
    obtain ⟨h1, h2⟩ := interpFactors_bounds (min |g| 10) hcl
    have hp : 0 < interpFactors (min |g| 10) := by linarith
    constructor
    · rw [le_div_iff₀ hp]; nlinarith
    · have : 1 / interpFactors (min |g| 10) ≤ 1 := by
        rw [div_le_one hp]; linarith
      linarith

lemma gradeFactor_pos (g : ℚ) : 0 < gradeFactor g := by
  have := (gradeFactor_bounds g).1
  linarith

lemma gradeFactor_ne_zero (g : ℚ) : gradeFactor g ≠ 0 :=
  ne_of_gt (gradeFactor_pos g)

lemma zipWith_get?_eq {α β γ : Type} (f : α → β → γ) :
    ∀ (l1 : List α) (l2 : List β) (i : ℕ) (a : α) (b : β),
      l1.get? i = some a → l2.get? i = some b →
      (List.zipWith f l1 l2).get? i = some (f a b) := by
  intro l1
  induction l1 with
  | nil => intro l2 i a b h1 _; simp at h1
  | cons x xs ih =>
      intro l2 i a b h1 h2
      cases l2 with
      | nil => simp at h2
      | cons y ys =>
          cases i with
          | zero =>
              simp at h1 h2
              simp [List.zipWith, h1, h2]
          | succ j =>
              simp only [List.get?] at h1 h2 ⊢
              exact ih ys j a b h1 h2

end CourseScope

namespace CourseScope

lemma interpFactors_natCast (k : ℕ) (hk : k < 10) :
    interpFactors (k : ℚ) = gradeFactorTable k := by
  unfold interpFactors
  rw [if_neg (by exact_mod_cast not_le.mpr hk)]
  have h1 : ((k : ℚ)).floor = (k : ℤ) := by
    have hr : ((k : ℚ)).floor = ⌊(k : ℚ)⌋ := rfl
    rw [hr, Int.floor_natCast]
  rw [h1]
  simp

lemma gradeFactor_natCast (k : ℕ) (hk : k ≤ 10) :
    gradeFactor (k : ℚ) = gradeFactorTable k := by
  rw [gradeFactor_nonneg_eq _ (by positivity)]
  rcases Nat.lt_or_ge k 10 with h | h
  · rw [min_eq_left (by exact_mod_cast Nat.le_of_lt h), interpFactors_natCast k h]
  · have hk10 : k = 10 := le_antisymm hk h
    subst hk10
    rw [(by norm_num : ((10:ℕ):ℚ) = 10), min_self]
    unfold interpFactors
    rw [if_pos (by norm_num)]

lemma gradeFactor_ge_ten (g : ℚ) (hg : 10 ≤ g) : gradeFactor g = 1358/1000 := by
  rw [gradeFactor_nonneg_eq _ (by linarith), min_eq_right hg]
  unfold interpFactors
  rw [if_pos (le_refl _)]
  simp [gradeFactorTable]

lemma gradeFactor_interp_eq (g : ℚ) (h0 : 0 ≤ g) (h10 : g < 10) :
    gradeFactor g =
      gradeFactorTable g.floor.toNat * (1 - (g - (g.floor.toNat : ℚ))) +
      gradeFactorTable (g.floor.toNat + 1) * (g - (g.floor.toNat : ℚ)) := by
  rw [gradeFactor_nonneg_eq _ h0, min_eq_left (le_of_lt h10)]
  unfold interpFactors
  rw [if_neg (not_le.mpr h10)]

lemma gradeFactor_neg_reciprocal (g : ℚ) (hg : g < 0) :
    gradeFactor g = max (1 / gradeFactor (-g)) minDownhillFactor := by
  have hpos : 0 ≤ -g := by linarith
  rw [gradeFactor_neg_eq g hg, gradeFactor_nonneg_eq (-g) hpos, abs_of_neg hg]
  exact (max_eq_left (le_of_lt (downhill_floor_not_binding _
    (le_min hpos (by norm_num))))).symm

lemma gapPoint_some_some (p gv : ℚ) :
    gapPoint (some p) (some gv) = some (p / gradeFactor gv) := by
  simp [gapPoint, gradeFactor_ne_zero gv]

/-- **C6.** `compute_gap_series` returns, at every point, the pace divided by
`grade_factor(grade)`.  The factor piecewise-linearly interpolates the integer
0–10 % uphill table (exactly the table value at integer grades, the clamped
last value above 10 %), and for negative grades it is the reciprocal of the
uphill factor floored at the minimum multiplier `MIN_DOWNHILL_FACTOR`.  The
GAP value is undefined exactly at indices where the grade or the pace is
undefined or the factor is undefined/zero (the factor is defined whenever the
grade is). -/
theorem gap_series_formula_and_domain :
    (∀ k : ℕ, k ≤ 10 → gradeFactor (k : ℚ) = gradeFactorTable k) ∧
    (∀ g : ℚ, 0 ≤ g → g < 10 →
      gradeFactor g =
        gradeFactorTable g.floor.toNat * (1 - (g - (g.floor.toNat : ℚ))) +
        gradeFactorTable (g.floor.toNat + 1) * (g - (g.floor.toNat : ℚ))) ∧
    (∀ g : ℚ, 10 ≤ g → gradeFactor g = 1358/1000) ∧
    (∀ g : ℚ, g < 0 → gradeFactor g = max (1 / gradeFactor (-g)) minDownhillFactor) ∧
    (∀ p gv : ℚ, gapPoint (some p) (some gv) = some (p / gradeFactor gv)) ∧
    (∀ p g : Option ℚ,
      gapPoint p g = none ↔ p = none ∨ g = none ∨ ∃ gv, g = some gv ∧ gradeFactor gv = 0) ∧
    (∀ pace grade : List (Option ℚ), ∀ i : ℕ, ∀ pv gv : Option ℚ,
      pace.get? i = some pv → grade.get? i = some gv →
      (computeGapSeries pace grade).get? i = some (gapPoint pv gv)) := by
  refine ⟨gradeFactor_natCast, gradeFactor_interp_eq, gradeFactor_ge_ten,
    gradeFactor_neg_reciprocal, gapPoint_some_some, ?_, ?_⟩
  · intro p g
    match p, g with
    | none, none => simp [gapPoint]
    | none, some gv => simp [gapPoint]
    | some pv, none => simp [gapPoint]
    | some pv, some gv =>
        rw [gapPoint_some_some]
        simp [gradeFactor_ne_zero]
  · intro pace grade i pv gv h1 h2
    exact zipWith_get?_eq gapPoint pace grade i pv gv h1 h2

/-- Witness for C6: the theorem applied at concrete inputs. -/
theorem gap_series_formula_and_domain_witness :
    gradeFactor ((3 : ℕ) : ℚ) = gradeFactorTable 3 ∧
    gradeFactor (-12) = max (1 / gradeFactor 12) minDownhillFactor ∧
    (computeGapSeries [some 300] [some 2]).get? 0 = some (gapPoint (some 300) (some 2)) :=
  ⟨gap_series_formula_and_domain.1 3 (by norm_num),
   (by simpa using gap_series_formula_and_domain.2.2.2.1 (-12) (by norm_num)),
   gap_series_formula_and_domain.2.2.2.2.2.2 [some 300] [some 2] 0 (some 300) (some 2)
     (by rfl) (by rfl)⟩

/-- **C10.** `grade_factor` always returns a finite positive value in
`[1000/1358, 1358/1000]` (so never zero); the downhill floor
`MIN_DOWNHILL_FACTOR = 0.70` lies strictly below the attainable minimum
`1000/1358 = 500/679 ≈ 0.7364` and is never the binding bound; consequently
`compute_gap_series` is defined at every index where grade and pace are both
finite. -/
theorem grade_factor_bounds_and_gap_totality :
    (∀ g : ℚ, 500/679 ≤ gradeFactor g ∧ gradeFactor g ≤ 1358/1000 ∧ gradeFactor g ≠ 0) ∧
    (∀ g : ℚ, g < 0 →
      minDownhillFactor < 1 / interpFactors (min |g| 10) ∧
      gradeFactor g = 1 / interpFactors (min |g| 10)) ∧
    minDownhillFactor = 7/10 ∧ minDownhillFactor < 500/679 ∧
    (∀ p gv : ℚ, gapPoint (some p) (some gv) = some (p / gradeFactor gv)) ∧
    (∀ pace grade : List (Option ℚ), ∀ i : ℕ, ∀ pv gv : ℚ,
      pace.get? i = some (some pv) → grade.get? i = some (some gv) →
      (computeGapSeries pace grade).get? i = some (some (pv / gradeFactor gv))) := by
  refine ⟨?_, ?_, rfl, by norm_num [minDownhillFactor], gapPoint_some_some, ?_⟩
  · intro g
    obtain ⟨h1, h2⟩ := gradeFactor_bounds g
    exact ⟨h1, h2, gradeFactor_ne_zero g⟩
  · intro g hg
    exact ⟨downhill_floor_not_binding _ (le_min (abs_nonneg g) (by norm_num)),
      gradeFactor_neg_eq g hg⟩
  · intro pace grade i pv gv h1 h2
    have := zipWith_get?_eq gapPoint pace grade i (some pv) (some gv) h1 h2
    rwa [gapPoint_some_some] at this

/-- Witness for C10: the theorem applied at concrete inputs. -/
theorem grade_factor_bounds_and_gap_totality_witness :
    (500/679 ≤ gradeFactor (-5) ∧ gradeFactor (-5) ≤ 1358/1000 ∧ gradeFactor (-5) ≠ 0) ∧
    gradeFactor (-5) = 1 / interpFactors (min |(-5 : ℚ)| 10) ∧
    (computeGapSeries [some 240] [some (-5)]).get? 0 =
      some (some (240 / gradeFactor (-5))) :=
  ⟨grade_factor_bounds_and_gap_totality.1 (-5),
   (grade_factor_bounds_and_gap_totality.2.1 (-5) (by norm_num)).2,
   grade_factor_bounds_and_gap_totality.2.2.2.2.2 [some 240] [some (-5)] 0 240 (-5)
     (by rfl) (by rfl)⟩

end CourseScope

namespace CourseScope

/-! ## `_build_zone_table` and the zone tables (`backend/core/metrics.py:13`–`79`)

The presentational `range` label column (built by `label_func`) is omitted;
the claims concern only membership, `time_s` and `time_pct`. -/

/-- One row of a zone table: label, accumulated time, percentage of total. -/
structure ZoneRow where
  zone : String
  time_s : ℚ
  time_pct : ℚ
deriving DecidableEq

/-- `HR_ZONES`: five heart-rate zones over the HR/HRmax ratio; the last is
open-ended (`math.inf` modelled as `none`). -/
def hrZones : List (String × ℚ × Option ℚ) :=
  [("Z1", 1/2, some (3/5)), ("Z2", 3/5, some (7/10)), ("Z3", 7/10, some (4/5)),
   ("Z4", 4/5, some (9/10)), ("Z5", 9/10, none)]

/-- `PACE_ZONES`: five pace zones over the pace/threshold ratio. -/
def paceZones : List (String × ℚ × Option ℚ) :=
  [("Z1", 129/100, none), ("Z2", 114/100, some (129/100)),
   ("Z3", 106/100, some (114/100)), ("Z4", 99/100, some (106/100)),
   ("Z5", 0, some (99/100))]

/-- `POWER_ZONES`: seven power zones over the power/FTP ratio. -/
def powerZones : List (String × ℚ × Option ℚ) :=
  [("Z1", 0, some (55/100)), ("Z2", 55/100, some (75/100)),
   ("Z3", 75/100, some (90/100)), ("Z4", 90/100, some (105/100)),
   ("Z5", 105/100, some (120/100)), ("Z6", 120/100, some (150/100)),
   ("Z7", 150/100, none)]

/-- Zone membership: half-open `[low, high)`, or `low ≤ r` for the open-ended
final zone (`math.isinf(high)`). -/
def inZone (low : ℚ) (high : Option ℚ) (r : ℚ) : Bool :=
  match high with
  | none => decide (low ≤ r)
  | some h => decide (low ≤ r) && decide (r < h)

/-- The mask `np.isfinite(ratios) & np.isfinite(weights) & (weights > 0)`
applied to the zipped series: the finite-ratio, positive-weight samples. -/
def maskedPairs (ratios weights : List (Option ℚ)) : List (ℚ × ℚ) :=
  (List.zip ratios weights).filterMap fun p =>
    match p with
    | (some r, some w) => if 0 < w then some (r, w) else none
    | _ => none

/-- `weights[zone_mask].sum()` for one zone. -/
def zoneTime (pairs : List (ℚ × ℚ)) (low : ℚ) (high : Option ℚ) : ℚ :=
  ((pairs.filter fun p => inZone low high p.1).map Prod.snd).sum

/-- `_build_zone_table`: empty table when no masked sample or non-positive
total time, else one row per zone with summed time and percentage. -/
def buildZoneTable (ratios weights : List (Option ℚ))
    (zones : List (String × ℚ × Option ℚ)) : List ZoneRow :=
  let pairs := maskedPairs ratios weights
  if pairs.isEmpty then []
  else
    let total := (pairs.map Prod.snd).sum
    if total ≤ 0 then []
    else zones.map fun z =>
      { zone := z.1, time_s := zoneTime pairs z.2.1 z.2.2,
        time_pct := zoneTime pairs z.2.1 z.2.2 / total * 100 }

/-- Number of zones of a table that contain a given ratio. -/
def countZones (zones : List (String × ℚ × Option ℚ)) (r : ℚ) : ℕ :=
  zones.countP fun z => inZone z.2.1 z.2.2 r

/-- Sum of the `time_pct` column of a zone table. -/
def pctSum (rows : List ZoneRow) : ℚ :=
  (rows.map fun row => row.time_pct).sum

end CourseScope

namespace CourseScope

/-! ## Lemmas and claims about zone tables -/

set_option maxHeartbeats 1000000 in
lemma hr_zone_coverage (r : ℚ) :
    countZones hrZones r = if 1/2 ≤ r then 1 else 0 := by
  unfold countZones hrZones inZone
  simp only [List.countP_cons, List.countP_nil, Bool.and_eq_true, decide_eq_true_eq,
    ← not_le]
  by_cases b1 : (1/2:ℚ) ≤ r <;> by_cases b2 : (3/5:ℚ) ≤ r <;>
    by_cases b3 : (7/10:ℚ) ≤ r <;> by_cases b4 : (4/5:ℚ) ≤ r <;>
    by_cases b5 : (9/10:ℚ) ≤ r <;>
    simp only [b1, b2, b3, b4, b5, if_true, if_false, not_true, not_false_iff,
      and_true, and_false, true_and, false_and, not_not] <;>
    first
      | rfl
      | (exfalso; linarith)

set_option maxHeartbeats 1000000 in
lemma pace_zone_coverage (r : ℚ) :
    countZones paceZones r = if 0 ≤ r then 1 else 0 := by
  unfold countZones paceZones inZone
  simp only [List.countP_cons, List.countP_nil, Bool.and_eq_true, decide_eq_true_eq,
    ← not_le]
  by_cases b1 : (0:ℚ) ≤ r <;> by_cases b2 : (99/100:ℚ) ≤ r <;>
    by_cases b3 : (106/100:ℚ) ≤ r <;> by_cases b4 : (114/100:ℚ) ≤ r <;>
    by_cases b5 : (129/100:ℚ) ≤ r <;>
    simp only [b1, b2, b3, b4, b5, if_true, if_false, not_true, not_false_iff,
      and_true, and_false, true_and, false_and, not_not] <;>
    first
      | rfl
      | (exfalso; linarith)

set_option maxHeartbeats 1600000 in
lemma power_zone_coverage (r : ℚ) :
    countZones powerZones r = if 0 ≤ r then 1 else 0 := by
  unfold countZones powerZones inZone
  simp only [List.countP_cons, List.countP_nil, Bool.and_eq_true, decide_eq_true_eq,
    ← not_le]
  by_cases b1 : (0:ℚ) ≤ r <;> by_cases b2 : (55/100:ℚ) ≤ r <;>
    by_cases b3 : (75/100:ℚ) ≤ r <;> by_cases b4 : (90/100:ℚ) ≤ r <;>
    by_cases b5 : (105/100:ℚ) ≤ r <;> by_cases b6 : (120/100:ℚ) ≤ r <;>
    by_cases b7 : (150/100:ℚ) ≤ r <;>
    simp only [b1, b2, b3, b4, b5, b6, b7, if_true, if_false, not_true, not_false_iff,
      and_true, and_false, true_and, false_and, not_not] <;>
    first
      | rfl
      | (exfalso; linarith)

lemma sum_map_add_split {α : Type} (l : List α) (f g : α → ℚ) :
    (l.map fun x => f x + g x).sum = (l.map f).sum + (l.map g).sum := by
  induction l with
  | nil => simp
  | cons x xs ih => simp [ih]; ring

lemma sum_map_mul_const {α : Type} (l : List α) (f : α → ℚ) (c : ℚ) :
    (l.map fun x => f x * c).sum = (l.map f).sum * c := by
  induction l with
  | nil => simp
  | cons x xs ih => simp [ih]; ring

lemma filter_sum_eq (pairs : List (ℚ × ℚ)) (q : ℚ × ℚ → Bool) :
    ((pairs.filter q).map Prod.snd).sum =
      (pairs.map fun p => if q p then p.2 else 0).sum := by
  induction pairs with
  | nil => rfl
  | cons p l ih => by_cases hq : q p <;> simp [List.filter_cons, hq, ih]

lemma zone_times_total (zones : List (String × ℚ × Option ℚ)) (pairs : List (ℚ × ℚ)) :
    (zones.map fun z => zoneTime pairs z.2.1 z.2.2).sum =
      (pairs.map fun p => (countZones zones p.1 : ℚ) * p.2).sum := by
  induction zones with
  | nil => simp [countZones]
  | cons z zs ih =>
      simp only [List.map_cons, List.sum_cons, ih]
      rw [zoneTime, filter_sum_eq]
      rw [← sum_map_add_split]
      apply congrArg
      apply List.map_congr_left
      intro p _
      simp only [countZones, List.countP_cons]
      by_cases hz : inZone z.2.1 z.2.2 p.1 <;> simp [hz] <;> push_cast <;> ring

lemma maskedPairs_weight_pos (ratios weights : List (Option ℚ)) :
    ∀ p ∈ maskedPairs ratios weights, 0 < p.2 := by
  intro p hp
  rw [maskedPairs, List.mem_filterMap] at hp
  obtain ⟨q, _, hq⟩ := hp
  match q with
  | (some r, some w) =>
      simp only at hq
      split_ifs at hq with hw
      · cases hq; exact hw
  | (none, _) => simp at hq
  | (some _, none) => simp at hq

lemma sum_pos_of_mem_pos (l : List ℚ) (hne : l ≠ []) (hpos : ∀ x ∈ l, 0 < x) :
    0 < l.sum := by
  induction l with
  | nil => exact absurd rfl hne
  | cons x xs ih =>
      rcases List.eq_nil_or_concat xs with h | _
      · subst h; simpa using hpos x (by simp)
      · cases xs with
        | nil => simpa using hpos x (by simp)
        | cons y ys =>
            have h1 : 0 < x := hpos x (by simp)
            have h2 : 0 < (y :: ys).sum := by
              apply ih (by simp) (fun z hz => hpos z (by simp [hz]))
            simp only [List.sum_cons] at h2 ⊢
            linarith

/-- If every masked ratio lies at or above a base covered exactly once by the
zone table, the `time_pct` column sums to exactly 100. -/
lemma pct_sum_eq_100 (ratios weights : List (Option ℚ))
    (zones : List (String × ℚ × Option ℚ)) (base : ℚ)
    (hcov : ∀ r : ℚ, base ≤ r → countZones zones r = 1)
    (hbase : ∀ p ∈ maskedPairs ratios weights, base ≤ p.1)
    (hne : maskedPairs ratios weights ≠ []) :
    pctSum (buildZoneTable ratios weights zones) = 100 := by
  have hwpos := maskedPairs_weight_pos ratios weights
  set pairs := maskedPairs ratios weights with hpairs
  have htot : 0 < (pairs.map Prod.snd).sum := by
    apply sum_pos_of_mem_pos
    · simpa using hne
    · intro x hx
      rw [List.mem_map] at hx
      obtain ⟨p, hp, hxp⟩ := hx
      exact hxp ▸ hwpos p hp
  set total := (pairs.map Prod.snd).sum with htotdef
  rw [pctSum, buildZoneTable]
  rw [if_neg (by simp [← hpairs, hne]), if_neg (by rw [← hpairs, ← htotdef]; linarith)]
  rw [← hpairs, ← htotdef, List.map_map]
  have hmc : (zones.map fun z =>
      ((fun row : ZoneRow => row.time_pct) ∘ fun z : String × ℚ × Option ℚ =>
        ({ zone := z.1, time_s := zoneTime pairs z.2.1 z.2.2,
           time_pct := zoneTime pairs z.2.1 z.2.2 / total * 100 } : ZoneRow)) z).sum =
      (zones.map fun z => zoneTime pairs z.2.1 z.2.2 * (100 / total)).sum := by
    apply congrArg
    apply List.map_congr_left
    intro z _
    simp only [Function.comp]
    ring
  rw [hmc, sum_map_mul_const, zone_times_total]
  have hone : (pairs.map fun p => (countZones zones p.1 : ℚ) * p.2).sum =
      (pairs.map Prod.snd).sum := by
    apply congrArg
    apply List.map_congr_left
    intro p hp
    rw [hcov p.1 (hbase p hp)]
    push_cast
    ring
  rw [hone, ← htotdef]
  field_simp

/-- **C1 (counterexample).** A finite-ratio, positive-weight HR sample with
ratio `0.3 < 0.5` falls in no HR zone, so the built HR zone table counts it
nowhere and its `time_pct` column sums to `0`, not 100. -/
theorem zone_table_pct_counterexample :
    maskedPairs [some (3/10)] [some 1] ≠ [] ∧
    countZones hrZones (3/10) = 0 ∧
    pctSum (buildZoneTable [some (3/10)] [some 1] hrZones) = 0 := by
  refine ⟨by simp [maskedPairs, List.filterMap_cons], ?_, ?_⟩
  · norm_num [countZones, hrZones, inZone, List.countP_cons]
  · simp only [pctSum, buildZoneTable, maskedPairs, zoneTime, hrZones, inZone,
      List.filterMap_cons, List.filterMap_nil, List.zip_cons_cons, List.zip_nil_right]
    norm_num [List.filter_cons, List.isEmpty]

/-- **C1 (amended).** Each zone table's rows are mutually exclusive, and they
are exhaustive exactly over ratios at or above the table's lowest lower bound
(`0.5` for HR, `0` for pace and power): such a ratio lies in exactly one zone,
a ratio below lies in none.  Consequently the `time_pct` column sums to 100 %
whenever every finite-ratio positive-weight sample has ratio at or above that
base (always true for nonnegative pace/power ratios; HR samples below 50 % of
HRmax are counted in no row). -/
theorem zone_tables_partition_above_base :
    (∀ r : ℚ, countZones hrZones r = if 1/2 ≤ r then 1 else 0) ∧
    (∀ r : ℚ, countZones paceZones r = if 0 ≤ r then 1 else 0) ∧
    (∀ r : ℚ, countZones powerZones r = if 0 ≤ r then 1 else 0) ∧
    (∀ ratios weights : List (Option ℚ),
      (∀ p ∈ maskedPairs ratios weights, 1/2 ≤ p.1) →
      maskedPairs ratios weights ≠ [] →
      pctSum (buildZoneTable ratios weights hrZones) = 100) ∧
    (∀ ratios weights : List (Option ℚ),
      (∀ p ∈ maskedPairs ratios weights, 0 ≤ p.1) →
      maskedPairs ratios weights ≠ [] →
      pctSum (buildZoneTable ratios weights paceZones) = 100) ∧
    (∀ ratios weights : List (Option ℚ),
      (∀ p ∈ maskedPairs ratios weights, 0 ≤ p.1) →
      maskedPairs ratios weights ≠ [] →
      pctSum (buildZoneTable ratios weights powerZones) = 100) := by
  refine ⟨hr_zone_coverage, pace_zone_coverage, power_zone_coverage, ?_, ?_, ?_⟩
  · intro ratios weights hbase hne
    exact pct_sum_eq_100 ratios weights hrZones (1/2)
      (fun r hr => by rw [hr_zone_coverage, if_pos hr]) hbase hne
  · intro ratios weights hbase hne
    exact pct_sum_eq_100 ratios weights paceZones 0
      (fun r hr => by rw [pace_zone_coverage, if_pos hr]) hbase hne
  · intro ratios weights hbase hne
    exact pct_sum_eq_100 ratios weights powerZones 0
      (fun r hr => by rw [power_zone_coverage, if_pos hr]) hbase hne

/-- Witness for the amended C1: concrete HR ratios all at or above 0.5 sum to
100 %, applied through the theorem. -/
theorem zone_tables_partition_above_base_witness :
    pctSum (buildZoneTable [some (55/100), some (95/100)] [some 10, some 30] hrZones) = 100 ∧
    pctSum (buildZoneTable [some (1/2)] [some 7] paceZones) = 100 :=
  ⟨zone_tables_partition_above_base.2.2.2.1 [some (55/100), some (95/100)]
      [some 10, some 30]
      (by simp only [maskedPairs, List.filterMap_cons, List.filterMap_nil,
            List.zip_cons_cons, List.zip_nil_right]
          norm_num)
      (by simp [maskedPairs, List.filterMap_cons]),
   zone_tables_partition_above_base.2.2.2.2.1 [some (1/2)] [some 7]
      (by simp only [maskedPairs, List.filterMap_cons, List.filterMap_nil,
            List.zip_cons_cons, List.zip_nil_right]
          norm_num)
      (by simp [maskedPairs, List.filterMap_cons])⟩

end CourseScope

namespace CourseScope

/-! ## `compute_moving_mask` (`backend/core/real_run_analysis.py:131`)

The speed series is median-filtered (window 3, centered, `min_periods=1`);
pause accumulation runs over the indices with positive delta-time ("active"
indices); a run of below-threshold active samples whose accumulated delta-time
reaches the minimum pause duration is confirmed, and the mask is cleared from
the run's first active index through the next active index after the run (or
the last index of the table when none follows). -/

/-- `MOVING_SPEED_THRESHOLD_M_S = 0.5` (`core/constants.py`). -/
def movingSpeedThreshold : ℚ := 1/2

/-- `DEFAULT_MIN_PAUSE_DURATION_S = 5.0` (`core/constants.py`). -/
def defaultMinPauseDuration : ℚ := 5

/-- Median of three values. -/
def med3vals (a b c : ℚ) : ℚ := max (min a b) (min (max a b) c)

/-- `Series.rolling(window=3, center=True, min_periods=1).median()`: at the
edges the window holds two values and pandas' median of two is their mean. -/
def rollMedian3 (s : List ℚ) : List ℚ :=
  (List.range s.length).map fun i =>
    match (if i = 0 then none else s.get? (i - 1)), s.get? i, s.get? (i + 1) with
    | none,   some b, none   => b
    | none,   some b, some c => (b + c) / 2
    | some a, some b, none   => (a + b) / 2
    | some a, some b, some c => med3vals a b c
    | _,      _,      _      => 0

/-- Maximal runs of `true` in a boolean list, as `(startPos, endPos)` pairs
(the RLE encoding of `low_active`). -/
def boolRunsAux : List Bool → ℕ → Option ℕ → List (ℕ × ℕ)
  | [], _, none => []
  | [], i, some s => [(s, i - 1)]
  | b :: rest, i, none =>
      if b then boolRunsAux rest (i + 1) (some i) else boolRunsAux rest (i + 1) none
  | b :: rest, i, some s =>
      if b then boolRunsAux rest (i + 1) (some s)
      else (s, i - 1) :: boolRunsAux rest (i + 1) none

def boolRuns (l : List Bool) : List (ℕ × ℕ) := boolRunsAux l 0 none

/-- The active (positive delta-time) indices of the table. -/
def activeIdx (dtv : List ℚ) : List ℕ :=
  (List.range dtv.length).filter fun i => decide (0 < dtv.getD i 0)

/-- Accumulated delta-time of one below-threshold run (positions `s‥e` in
active-index space). -/
def runDuration (dtv : List ℚ) (active : List ℕ) (s e : ℕ) : ℚ :=
  (((active.drop s).take (e - s + 1)).map fun i => dtv.getD i 0).sum

/-- The confirmed pauses of `compute_moving_mask`, as index ranges
`[start_idx, stop_idx]` to be cleared in the mask: `start_idx` is the run's
first active index and `stop_idx` the next active index after the run, or
`len(df) - 1` when the run is final. -/
def confirmedMarks (speed dt : List (Option ℚ)) (thr minp : ℚ) : List (ℕ × ℕ) :=
  let n := speed.length
  let dtv := posOrZero (fillna0 dt)
  let active := activeIdx dtv
  let lowActive := active.map fun i => decide ((rollMedian3 (fillna0 speed)).getD i 0 < thr)
  (boolRuns lowActive).filterMap fun r =>
    if minp ≤ runDuration dtv active r.1 r.2 then
      some (active.getD r.1 0,
            if r.2 + 1 < active.length then active.getD (r.2 + 1) 0 else n - 1)
    else none

/-- `moving[a : b + 1] = False` on a boolean list. -/
def markRange : List Bool → ℕ → ℕ → List Bool
  | [], _, _ => []
  | _ :: xs, 0, 0 => false :: xs
  | _ :: xs, 0, b + 1 => false :: markRange xs 0 b
  | x :: xs, _ + 1, 0 => x :: xs
  | x :: xs, a + 1, b + 1 => x :: markRange xs a b

/-- `compute_moving_mask`: all-true mask, then each confirmed pause range is
cleared. -/
def movingMask (speed dt : List (Option ℚ)) (thr minp : ℚ) : List Bool :=
  (confirmedMarks speed dt thr minp).foldl (fun acc r => markRange acc r.1 r.2)
    (List.replicate speed.length true)

/-- Modelled from the claim's words (C3, for comparison with the code): a
sample is flagged not-moving iff it belongs to a contiguous run of
below-threshold positive-delta-time samples whose accumulated delta-time
reaches the minimum pause duration, or it is the first sample after such a
run. -/
def claimMovingMask (speed dt : List (Option ℚ)) (thr minp : ℚ) : List Bool :=
  let n := speed.length
  let dtv := posOrZero (fillna0 dt)
  let active := activeIdx dtv
  let lowActive := active.map fun i => decide ((rollMedian3 (fillna0 speed)).getD i 0 < thr)
  let confirmedRuns := (boolRuns lowActive).filter fun r =>
    decide (minp ≤ runDuration dtv active r.1 r.2)
  (List.range n).map fun j =>
    ! confirmedRuns.any fun r =>
        ((active.drop r.1).take (r.2 - r.1 + 1)).contains j ||
          decide (j = active.getD r.2 0 + 1)

end CourseScope

namespace CourseScope

lemma markRange_length (l : List Bool) : ∀ a b, (markRange l a b).length = l.length := by
  induction l with
  | nil => intro a b; rfl
  | cons x xs ih =>
      intro a b
      match a, b with
      | 0, 0 => simp [markRange]
      | 0, b + 1 => simp [markRange, ih]
      | a + 1, 0 => simp [markRange]
      | a + 1, b + 1 => simp [markRange, ih]

lemma markRange_get? (l : List Bool) :
    ∀ a b j, (markRange l a b).get? j =
      if a ≤ j ∧ j ≤ b ∧ j < l.length then some false else l.get? j := by
  induction l with
  | nil =>
      intro a b j
      rw [if_neg]
      · rfl
      · rintro ⟨_, _, h3⟩; simp at h3
  | cons x xs ih =>
      intro a b j
      match a, b with
      | 0, 0 =>
          match j with
          | 0 => simp [markRange]
          | j + 1 =>
              rw [if_neg (by omega)]
              simp [markRange]
      | 0, b + 1 =>
          match j with
          | 0 => simp [markRange]
          | j + 1 =>
              show (markRange xs 0 b).get? j = _
              rw [ih 0 b j]
              by_cases h : 0 ≤ j ∧ j ≤ b ∧ j < xs.length
              · rw [if_pos h, if_pos (by simp only [List.length_cons]; omega)]
              · rw [if_neg h, if_neg (by simp at h ⊢; omega)]
                rfl
      | a + 1, 0 =>
          rw [if_neg (by omega)]
          rfl
      | a + 1, b + 1 =>
          match j with
          | 0 =>
              rw [if_neg (by omega)]
              rfl
          | j + 1 =>
              show (markRange xs a b).get? j = _
              rw [ih a b j]
              by_cases h : a ≤ j ∧ j ≤ b ∧ j < xs.length
              · rw [if_pos h, if_pos (by simp only [List.length_cons]; omega)]
              · rw [if_neg h, if_neg (by simp at h ⊢; omega)]
                rfl

lemma foldl_markRange_length (rs : List (ℕ × ℕ)) (init : List Bool) :
    (rs.foldl (fun acc r => markRange acc r.1 r.2) init).length = init.length := by
  induction rs generalizing init with
  | nil => rfl
  | cons r rs ih =>
      simp only [List.foldl_cons]
      rw [ih, markRange_length]

lemma foldl_markRange_get? (rs : List (ℕ × ℕ)) (init : List Bool) (j : ℕ)
    (hj : j < init.length) :
    ((rs.foldl (fun acc r => markRange acc r.1 r.2) init).get? j = some false ↔
      init.get? j = some false ∨ ∃ r ∈ rs, r.1 ≤ j ∧ j ≤ r.2) := by
  induction rs generalizing init with
  | nil => simp
  | cons r rs ih =>
      simp only [List.foldl_cons]
      rw [ih (markRange init r.1 r.2) (by rw [markRange_length]; exact hj)]
      rw [markRange_get? init r.1 r.2 j]
      by_cases h : r.1 ≤ j ∧ j ≤ r.2 ∧ j < init.length
      · rw [if_pos h]
        constructor
        · intro _; exact Or.inr ⟨r, List.mem_cons_self r rs, h.1, h.2.1⟩
        · intro _; exact Or.inl rfl
      · rw [if_neg h]
        constructor
        · rintro (hi | ⟨r', hr', hc⟩)
          · exact Or.inl hi
          · exact Or.inr ⟨r', List.mem_cons_of_mem r hr', hc⟩
        · rintro (hi | ⟨r', hr', hc1, hc2⟩)
          · exact Or.inl hi
          · rcases List.mem_cons.mp hr' with hr'' | hr'
            · exact absurd ⟨hr'' ▸ hc1, hr'' ▸ hc2, hj⟩ h
            · exact Or.inr ⟨r', hr', hc1, hc2⟩

end CourseScope

namespace CourseScope

/-- **C3 (amended).** `compute_moving_mask` flags as not-moving exactly the
samples covered by a confirmed pause range: from the first positive-delta-time
sample of a below-threshold median-filtered-speed run whose accumulated
delta-time reaches the minimum pause duration, through the first
positive-delta-time sample after the run (or through the last sample of the
table when no such sample follows).  Every sample outside all such ranges —
including below-threshold runs that never reach the minimum duration — is
flagged moving.  Samples with non-positive delta-time are skipped for
accumulation and do not reset an in-progress run (runs live in the space of
active indices), but when they fall inside a confirmed range they are flagged
not-moving as well. -/
theorem moving_mask_flags_confirmed_ranges
    (speed dt : List (Option ℚ)) (thr minp : ℚ) (j : ℕ) (hj : j < speed.length) :
    ((movingMask speed dt thr minp).get? j = some false ↔
      ∃ r ∈ confirmedMarks speed dt thr minp, r.1 ≤ j ∧ j ≤ r.2) ∧
    ((movingMask speed dt thr minp).get? j = some true ↔
      ¬ ∃ r ∈ confirmedMarks speed dt thr minp, r.1 ≤ j ∧ j ≤ r.2) := by
  have hlen : (movingMask speed dt thr minp).length = speed.length := by
    rw [movingMask, foldl_markRange_length, List.length_replicate]
  have hrepl : (List.replicate speed.length true).get? j = some true := by
    rw [List.get?_eq_getElem?]
    simp [List.getElem?_replicate, hj]
  have hmain := foldl_markRange_get? (confirmedMarks speed dt thr minp)
      (List.replicate speed.length true) j (by simpa using hj)
  have hfalse : (movingMask speed dt thr minp).get? j = some false ↔
      ∃ r ∈ confirmedMarks speed dt thr minp, r.1 ≤ j ∧ j ≤ r.2 := by
    rw [movingMask, hmain, hrepl]
    simp
  refine ⟨hfalse, ?_⟩
  obtain ⟨b, hb⟩ : ∃ b, (movingMask speed dt thr minp).get? j = some b := by
    match hh : (movingMask speed dt thr minp).get? j with
    | some b => exact ⟨b, rfl⟩
    | none => exact absurd (List.get?_eq_none.mp hh) (not_le.mpr (hlen ▸ hj))
  rw [hb]
  rw [hb] at hfalse
  match b with
  | false => simpa using hfalse
  | true =>
      simp only [Option.some_inj]
      constructor
      · intro _ hex
        exact absurd (hfalse.mpr hex) (by simp)
      · intro _; trivial

end CourseScope

namespace CourseScope

/-- Witness for the amended C3, at a concrete table and index. -/
theorem moving_mask_flags_confirmed_ranges_witness :
    ((movingMask [some 0, some 0, some 0, some 5] [some 10, some 10, some 0, some 10]
        movingSpeedThreshold defaultMinPauseDuration).get? 3 = some false ↔
      ∃ r ∈ confirmedMarks [some 0, some 0, some 0, some 5]
          [some 10, some 10, some 0, some 10] movingSpeedThreshold
          defaultMinPauseDuration, r.1 ≤ 3 ∧ 3 ≤ r.2) ∧
    ((movingMask [some 0, some 0, some 0, some 5] [some 10, some 10, some 0, some 10]
        movingSpeedThreshold defaultMinPauseDuration).get? 3 = some true ↔
      ¬ ∃ r ∈ confirmedMarks [some 0, some 0, some 0, some 5]
          [some 10, some 10, some 0, some 10] movingSpeedThreshold
          defaultMinPauseDuration, r.1 ≤ 3 ∧ 3 ≤ r.2) :=
  moving_mask_flags_confirmed_ranges [some 0, some 0, some 0, some 5]
    [some 10, some 10, some 0, some 10] movingSpeedThreshold defaultMinPauseDuration 3
    (by norm_num)

/-- **C3 (counterexample).** On the table with speeds `[0, 0, 0, 5]` and
delta-times `[10, 10, 0, 10]` (default threshold 0.5 m/s, minimum pause 5 s),
the confirmed pause run consists of the active samples `{0, 1}` and the first
sample after it is index 2, so the claim predicts the mask
`[false, false, false, true]`; the code clears the mask through the next
*active* sample, index 3, producing `[false, false, false, false]`.  Sample 3
(median-filtered speed 2.5 ≥ 0.5, delta-time 10 > 0) is neither part of a
below-threshold run nor the first sample after one, yet it is flagged
not-moving. -/
theorem moving_mask_counterexample :
    movingMask [some 0, some 0, some 0, some 5] [some 10, some 10, some 0, some 10]
        movingSpeedThreshold defaultMinPauseDuration = [false, false, false, false] ∧
    claimMovingMask [some 0, some 0, some 0, some 5] [some 10, some 10, some 0, some 10]
        movingSpeedThreshold defaultMinPauseDuration = [false, false, false, true] := by
  constructor
  · norm_num [movingMask, confirmedMarks, activeIdx, boolRuns, boolRunsAux, rollMedian3,
      med3vals, runDuration, markRange, posOrZero, fillna0, movingSpeedThreshold,
      defaultMinPauseDuration, List.range_succ, List.filter_cons, List.filterMap_cons]
  · norm_num [claimMovingMask, activeIdx, boolRuns, boolRunsAux, rollMedian3,
      med3vals, runDuration, posOrZero, fillna0, movingSpeedThreshold,
      defaultMinPauseDuration, List.range_succ, List.filter_cons, List.filterMap_cons,
      List.any, List.contains]

end CourseScope

namespace CourseScope

/-! ## `compute_best_efforts` (`backend/core/real_run_analysis.py:422`)

The cumulative-distance and elapsed-time columns (after `_prepare_effort_arrays`)
are modelled as index functions `d t : ℕ → ℚ` with a sample count `n`. -/

/-- The best-time update of the scan:
`if current_time > 0 and (isnan(best) or current_time < best): best = current`. -/
def updBest (best : Option ℚ) (x : ℚ) : Option ℚ :=
  match best with
  | none => if 0 < x then some x else none
  | some b => if 0 < x ∧ x < b then some x else some b

/-- The inner `while` loop of `compute_best_efforts`: advance the window start
while the window still spans the target, evaluating each window. -/
def scanInner (d t : ℕ → ℚ) (tgt : ℚ) (e s : ℕ) (best : Option ℚ) : ℕ × Option ℚ :=
  if h : s < e ∧ tgt ≤ d e - d s then
    scanInner d t tgt e (s + 1) (updBest best (t e - t s))
  else (s, best)
termination_by e - s
decreasing_by omega

/-- State of the scan after the outer loop has processed window ends `< n`. -/
def scanState (n : ℕ) (d t : ℕ → ℚ) (tgt : ℚ) : ℕ × Option ℚ :=
  (List.range n).foldl (fun sb e => scanInner d t tgt e sb.1 sb.2) (0, none)

/-- `compute_best_efforts` for one target distance (in metres): the best time
found by the two-pointer scan, `NaN`/`none` when never set. -/
def bestEffortTime (n : ℕ) (d t : ℕ → ℚ) (tgt : ℚ) : Option ℚ :=
  (scanState n d t tgt).2

/-- `targets_km = [1, 5, 10, 21.097, 42.195]`. -/
def bestEffortTargets : List ℚ := [1, 5, 10, 21097/1000, 42195/1000]

/-- `compute_best_efforts`: one row `(distance_km, time_s, pace_s_per_km)` per
target. -/
def computeBestEfforts (n : ℕ) (d t : ℕ → ℚ) : List (ℚ × Option ℚ × Option ℚ) :=
  bestEffortTargets.map fun target_km =>
    let tm := bestEffortTime n d t (target_km * 1000)
    (target_km, tm, tm.map (fun b => b / target_km))

/-- Specification-side enumeration: the elapsed times of all sample windows
`(i, j)`, `i < j < n`, whose cumulative-distance span reaches the target. -/
def windowTimes (n : ℕ) (d t : ℕ → ℚ) (tgt : ℚ) : List ℚ :=
  (List.range n).bind fun j =>
    (List.range j).filterMap fun i =>
      if tgt ≤ d j - d i then some (t j - t i) else none

/-- Minimum of a list of rationals, `none` on the empty list. -/
def listMinQ (l : List ℚ) : Option ℚ :=
  l.foldl (fun acc x =>
    match acc with
    | none => some x
    | some m => some (min m x)) none

end CourseScope

namespace CourseScope

/-! ### Lemmas about `listMinQ` and `updBest` -/

lemma listMinQ_go (l : List ℚ) : ∀ a : ℚ,
    l.foldl (fun acc x =>
      match acc with
      | none => some x
      | some m => some (min m x)) (some a) = some (l.foldl min a) := by
  induction l with
  | nil => intro a; rfl
  | cons x xs ih => intro a; exact ih (min a x)

lemma listMinQ_cons (x : ℚ) (l : List ℚ) : listMinQ (x :: l) = some (l.foldl min x) := by
  rw [listMinQ, List.foldl_cons]
  exact listMinQ_go l x

lemma foldl_min_mem (l : List ℚ) : ∀ a, l.foldl min a = a ∨ l.foldl min a ∈ l := by
  induction l with
  | nil => intro a; exact Or.inl rfl
  | cons x xs ih =>
      intro a
      rw [List.foldl_cons]
      rcases ih (min a x) with h | h
      · rcases min_choice a x with hm | hm
        · exact Or.inl (h.trans hm)
        · exact Or.inr (by rw [h, hm]; exact List.mem_cons_self x xs)
      · exact Or.inr (List.mem_cons_of_mem x h)

lemma foldl_min_le_init (l : List ℚ) : ∀ a, l.foldl min a ≤ a := by
  induction l with
  | nil => intro a; exact le_refl a
  | cons x xs ih =>
      intro a
      rw [List.foldl_cons]
      exact (ih (min a x)).trans (min_le_left a x)

lemma foldl_min_le_mem (l : List ℚ) : ∀ a x, x ∈ l → l.foldl min a ≤ x := by
  induction l with
  | nil => intro a x hx; simp at hx
  | cons y ys ih =>
      intro a x hx
      rw [List.foldl_cons]
      rcases List.mem_cons.mp hx with h | h
      · exact (foldl_min_le_init ys (min a y)).trans (h ▸ min_le_right a y)
      · exact ih (min a y) x h

lemma listMinQ_eq_some (l : List ℚ) (m : ℚ) (hm : m ∈ l) (hle : ∀ x ∈ l, m ≤ x) :
    listMinQ l = some m := by
  match l with
  | [] => simp at hm
  | x :: xs =>
      rw [listMinQ_cons]
      congr 1
      have h1 : xs.foldl min x ≤ m := by
        rcases List.mem_cons.mp hm with h | h
        · exact h ▸ foldl_min_le_init xs x
        · exact foldl_min_le_mem xs x m h
      have h2 : m ≤ xs.foldl min x := by
        rcases foldl_min_mem xs x with h | h
        · rw [h]; exact hle x (List.mem_cons_self x xs)
        · exact hle _ (List.mem_cons_of_mem x h)
      linarith

lemma updBest_some_of_some (best : Option ℚ) (x b : ℚ) (hb : best = some b) :
    ∃ b', updBest best x = some b' ∧ b' ≤ b := by
  subst hb
  rw [updBest]
  split_ifs with h
  · exact ⟨x, rfl, le_of_lt h.2⟩
  · exact ⟨b, rfl, le_refl b⟩

lemma updBest_le_new (best : Option ℚ) (x : ℚ) (hx : 0 < x) :
    ∃ b', updBest best x = some b' ∧ b' ≤ x := by
  match best with
  | none => rw [updBest]; exact ⟨x, if_pos hx, le_refl x⟩
  | some b =>
      rw [updBest]
      split_ifs with h
      · exact ⟨x, rfl, le_refl x⟩
      · refine ⟨b, rfl, ?_⟩
        rcases not_and_or.mp h with h1 | h1
        · exact absurd hx h1
        · exact not_lt.mp h1

lemma updBest_mem (best : Option ℚ) (x b' : ℚ) (h : updBest best x = some b') :
    best = some b' ∨ b' = x := by
  match best with
  | none =>
      rw [updBest] at h
      split_ifs at h with h1
      · exact Or.inr (Option.some_inj.mp h).symm
  | some b =>
      rw [updBest] at h
      split_ifs at h with h1
      · exact Or.inr (Option.some_inj.mp h).symm
      · exact Or.inl (by rw [Option.some_inj.mp h])

lemma updBest_none (best : Option ℚ) (x : ℚ) (h : updBest best x = none) :
    best = none := by
  match best with
  | none => rfl
  | some b => rw [updBest] at h; split_ifs at h

end CourseScope

namespace CourseScope

lemma updFold_some_of_some (xs : List ℚ) : ∀ (best : Option ℚ) (b : ℚ), best = some b →
    ∃ b', xs.foldl updBest best = some b' ∧ b' ≤ b := by
  induction xs with
  | nil => intro best b hb; exact ⟨b, hb, le_refl b⟩
  | cons x xs ih =>
      intro best b hb
      obtain ⟨b1, hb1, hle1⟩ := updBest_some_of_some best x b hb
      obtain ⟨b', hb', hle'⟩ := ih (updBest best x) b1 hb1
      exact ⟨b', hb', hle'.trans hle1⟩

lemma updFold_le_mem (xs : List ℚ) : ∀ (best : Option ℚ) (x : ℚ), x ∈ xs → 0 < x →
    ∃ b', xs.foldl updBest best = some b' ∧ b' ≤ x := by
  induction xs with
  | nil => intro best x hx; simp at hx
  | cons y ys ih =>
      intro best x hx hpos
      rcases List.mem_cons.mp hx with h | h
      · subst h
        obtain ⟨b1, hb1, hle1⟩ := updBest_le_new best x hpos
        obtain ⟨b', hb', hle'⟩ := updFold_some_of_some ys (updBest best x) b1 hb1
        exact ⟨b', hb', hle'.trans hle1⟩
      · exact ih (updBest best y) x h hpos

lemma updFold_src (xs : List ℚ) : ∀ (best : Option ℚ) (b' : ℚ),
    xs.foldl updBest best = some b' → best = some b' ∨ b' ∈ xs := by
  induction xs with
  | nil => intro best b' h; exact Or.inl h
  | cons x xs ih =>
      intro best b' h
      rcases ih (updBest best x) b' h with h1 | h1
      · rcases updBest_mem best x b' h1 with h2 | h2
        · exact Or.inl h2
        · exact Or.inr (h2 ▸ List.mem_cons_self x xs)
      · exact Or.inr (List.mem_cons_of_mem x h1)

lemma updFold_none (xs : List ℚ) : ∀ best : Option ℚ,
    xs.foldl updBest best = none → best = none := by
  induction xs with
  | nil => intro best h; exact h
  | cons x xs ih => intro best h; exact updBest_none best x (ih (updBest best x) h)

set_option maxHeartbeats 800000 in
lemma scanInner_unfold (d t : ℕ → ℚ) (tgt : ℚ) (e : ℕ) : ∀ (s : ℕ) (best : Option ℚ),
    ∃ s', scanInner d t tgt e s best =
        (s', ((List.range' s (s' - s)).map (fun i => t e - t i)).foldl updBest best) ∧
      s ≤ s' ∧ s' ≤ max s e ∧
      (∀ i, s ≤ i → i < s' → i < e ∧ tgt ≤ d e - d i) ∧
      (e ≤ s ∨ s' = e ∨ ¬ tgt ≤ d e - d s') := by
  have H : ∀ (fuel s : ℕ) (best : Option ℚ), e - s ≤ fuel →
      ∃ s', scanInner d t tgt e s best =
          (s', ((List.range' s (s' - s)).map (fun i => t e - t i)).foldl updBest best) ∧
        s ≤ s' ∧ s' ≤ max s e ∧
        (∀ i, s ≤ i → i < s' → i < e ∧ tgt ≤ d e - d i) ∧
        (e ≤ s ∨ s' = e ∨ ¬ tgt ≤ d e - d s') := by
    intro fuel
    induction fuel with
    | zero =>
        intro s best hfuel
        have hse : e ≤ s := by omega
        refine ⟨s, ?_, le_refl s, le_max_left s e, ?_, Or.inl hse⟩
        · rw [scanInner, dif_neg (by omega : ¬ (s < e ∧ tgt ≤ d e - d s))]
          simp
        · intro i h1 h2; omega
    | succ f ih =>
        intro s best hfuel
        rw [scanInner]
        by_cases h : s < e ∧ tgt ≤ d e - d s
        · rw [dif_pos h]
          obtain ⟨s', heq, hs1, hs2, hcheck, hexit⟩ :=
            ih (s + 1) (updBest best (t e - t s)) (by omega)
          refine ⟨s', ?_, by omega, ?_, ?_, ?_⟩
          · rw [heq]
            have hrange : List.range' s (s' - s) = s :: List.range' (s + 1) (s' - (s + 1)) := by
              have hlen : s' - s = (s' - (s + 1)) + 1 := by omega
              rw [hlen, List.range'_succ]
            rw [hrange, List.map_cons, List.foldl_cons]
          · have : max (s + 1) e = e := by omega
            rw [this] at hs2
            omega
          · intro i hi1 hi2
            rcases Nat.eq_or_lt_of_le hi1 with h1 | h1
            · exact h1 ▸ h
            · exact hcheck i h1 hi2
          · rcases hexit with h1 | h1 | h1
            · have : s' = e := by omega
              exact Or.inr (Or.inl this)
            · exact Or.inr (Or.inl h1)
            · exact Or.inr (Or.inr h1)
        · rw [dif_neg h]
          refine ⟨s, ?_, le_refl s, le_max_left s e, ?_, ?_⟩
          · simp
          · intro i h1 h2; omega
          · rcases not_and_or.mp h with h1 | h1
            · exact Or.inl (by omega)
            · exact Or.inr (Or.inr h1)
  intro s best
  exact H (e - s) s best (le_refl _)

end CourseScope

namespace CourseScope

/-- Invariant of the two-pointer scan after processing window ends `< m`:
the pointer is bounded, the best value (when set) is the time of some valid
window, it is a lower bound on all valid window times seen so far, and every
start index the pointer has passed is dominated by an already-evaluated
window. -/
def ScanInv (m : ℕ) (d t : ℕ → ℚ) (tgt : ℚ) (sb : ℕ × Option ℚ) : Prop :=
  sb.1 ≤ m ∧
  (∀ b, sb.2 = some b → ∃ i j, i < j ∧ j < m ∧ tgt ≤ d j - d i ∧ b = t j - t i) ∧
  (∀ i j, i < j → j < m → tgt ≤ d j - d i → ∃ b, sb.2 = some b ∧ b ≤ t j - t i) ∧
  (∀ i, i < sb.1 → ∃ b j, sb.2 = some b ∧ i < j ∧ j < m ∧ b ≤ t j - t i)

set_option maxHeartbeats 1200000 in
lemma scanState_inv (n : ℕ) (d t : ℕ → ℚ) (tgt : ℚ)
    (hd : ∀ i j, i ≤ j → j < n → d i ≤ d j)
    (ht : ∀ i j, i < j → j < n → t i < t j) :
    ∀ m, m ≤ n → ScanInv m d t tgt (scanState m d t tgt) := by
  intro m
  induction m with
  | zero =>
      intro _
      refine ⟨le_refl 0, ?_, ?_, ?_⟩
      · intro b hb; simp [scanState] at hb
      · intro i j h1 h2; omega
      · intro i hi; simp [scanState] at hi
  | succ m ih =>
      intro hm
      have hmn : m < n := hm
      obtain ⟨hptr, hA, hB, hC⟩ := ih (le_of_lt hmn)
      have hstep : scanState (m + 1) d t tgt =
          scanInner d t tgt m (scanState m d t tgt).1 (scanState m d t tgt).2 := by
        rw [scanState, scanState, List.range_succ, List.foldl_append, List.foldl_cons,
          List.foldl_nil]
      obtain ⟨s', heq, hs1, hs2, hcheck, hexit⟩ :=
        scanInner_unfold d t tgt m (scanState m d t tgt).1 (scanState m d t tgt).2
      set s := (scanState m d t tgt).1 with hsdef
      set best := (scanState m d t tgt).2 with hbestdef
      have hres : scanState (m + 1) d t tgt =
          (s', ((List.range' s (s' - s)).map (fun i => t m - t i)).foldl updBest best) := by
        rw [hstep, heq]
      set evs := (List.range' s (s' - s)).map (fun i => t m - t i) with hevs
      have hmem_ev : ∀ i, s ≤ i → i < s' → (t m - t i) ∈ evs := by
        intro i h1 h2
        rw [hevs]
        exact List.mem_map_of_mem _ (List.mem_range'_1.mpr ⟨h1, by omega⟩)
      have hpos_ev : ∀ i, i < m → 0 < t m - t i := by
        intro i hi
        have := ht i m hi hmn
        linarith
      refine ⟨?_, ?_, ?_, ?_⟩
      · rw [hres]
        simp only
        omega
      · -- membership: the best value is the time of a valid window
        intro b hb
        rw [hres] at hb
        simp only at hb
        rcases updFold_src evs best b hb with h1 | h1
        · obtain ⟨i, j, hij, hjm, hspan, hbt⟩ := hA b h1
          exact ⟨i, j, hij, by omega, hspan, hbt⟩
        · rw [hevs] at h1
          obtain ⟨i, hi, hbt⟩ := List.mem_map.mp h1
          obtain ⟨hi1, hi2⟩ := List.mem_range'_1.mp hi
          obtain ⟨him, hspan⟩ := hcheck i hi1 (by omega)
          exact ⟨i, m, him, by omega, hspan, hbt.symm⟩
      · -- minimality over all valid windows with end ≤ m
        intro i j hij hjm hspan
        rw [hres]
        simp only
        rcases Nat.lt_or_ge j m with hjm' | hjm'
        · obtain ⟨b, hb, hble⟩ := hB i j hij hjm' hspan
          obtain ⟨b', hb', hble'⟩ := updFold_some_of_some evs best b hb
          exact ⟨b', hb', hble'.trans hble⟩
        · have hjeq : j = m := by omega
          subst hjeq
          rcases Nat.lt_or_ge i s with his | his
          · obtain ⟨b, j0, hb, hij0, hj0m, hble⟩ := hC i his
            obtain ⟨b', hb', hble'⟩ := updFold_some_of_some evs best b hb
            have htj0 : t j0 ≤ t j := by
              rcases Nat.eq_or_lt_of_le (Nat.le_of_lt_succ (by omega : j0 < j + 1)) with h | h
              · rw [h]
              · exact le_of_lt (ht j0 j h hmn)
            exact ⟨b', hb', by linarith⟩
          · rcases Nat.lt_or_ge i s' with his' | his'
            · have hpos := hpos_ev i hij
              obtain ⟨b', hb', hble'⟩ := updFold_le_mem evs best (t j - t i)
                (hmem_ev i his his') hpos
              exact ⟨b', hb', hble'⟩
            · -- impossible: the pointer stopped because the span fell short
              exfalso
              rcases hexit with h1 | h1 | h1
              · omega
              · omega
              · have hdle : d s' ≤ d i := hd s' i his' (by omega)
                have : d j - d i ≤ d j - d s' := by linarith
                exact h1 (by linarith)
      · -- domination of passed start indices
        intro i hi
        rw [hres] at hi ⊢
        simp only at hi ⊢
        rcases Nat.lt_or_ge i s with his | his
        · obtain ⟨b, j0, hb, hij0, hj0m, hble⟩ := hC i his
          obtain ⟨b', hb', hble'⟩ := updFold_some_of_some evs best b hb
          exact ⟨b', j0, hb', hij0, by omega, by linarith⟩
        · obtain ⟨him, _⟩ := hcheck i his hi
          obtain ⟨b', hb', hble'⟩ := updFold_le_mem evs best (t m - t i)
            (hmem_ev i his hi) (hpos_ev i him)
          exact ⟨b', m, hb', him, by omega, hble'⟩

end CourseScope

namespace CourseScope

lemma mem_windowTimes (n : ℕ) (d t : ℕ → ℚ) (tgt x : ℚ) :
    x ∈ windowTimes n d t tgt ↔
      ∃ i j, i < j ∧ j < n ∧ tgt ≤ d j - d i ∧ x = t j - t i := by
  rw [windowTimes]
  constructor
  · intro hx
    obtain ⟨j, hj, hx2⟩ := List.mem_bind.mp hx
    obtain ⟨i, hi, hif⟩ := List.mem_filterMap.mp hx2
    rw [List.mem_range] at hj
    rw [List.mem_range] at hi
    by_cases hc : tgt ≤ d j - d i
    · rw [if_pos hc] at hif
      exact ⟨i, j, hi, hj, hc, (Option.some_inj.mp hif).symm⟩
    · rw [if_neg hc] at hif
      cases hif
  · rintro ⟨i, j, hij, hjn, hc, rfl⟩
    exact List.mem_bind.mpr ⟨j, List.mem_range.mpr hjn,
      List.mem_filterMap.mpr ⟨i, List.mem_range.mpr hij, by rw [if_pos hc]⟩⟩

lemma listMinQ_none_iff (l : List ℚ) : listMinQ l = none ↔ l = [] := by
  match l with
  | [] => simp [listMinQ]
  | x :: xs => rw [listMinQ_cons]; simp

/-- The two-pointer scan computes exactly the minimum window time, for a table
with non-decreasing cumulative distance and strictly increasing elapsed time. -/
lemma bestEffortTime_eq_min (n : ℕ) (d t : ℕ → ℚ) (tgt : ℚ)
    (hd : ∀ i j, i ≤ j → j < n → d i ≤ d j)
    (ht : ∀ i j, i < j → j < n → t i < t j) :
    bestEffortTime n d t tgt = listMinQ (windowTimes n d t tgt) := by
  obtain ⟨hptr, hA, hB, hC⟩ := scanState_inv n d t tgt hd ht n (le_refl n)
  rw [bestEffortTime]
  match hbest : (scanState n d t tgt).2 with
  | none =>
      have hempty : windowTimes n d t tgt = [] := by
        rw [List.eq_nil_iff_forall_not_mem]
        intro x hx
        obtain ⟨i, j, hij, hjn, hc, rfl⟩ := (mem_windowTimes n d t tgt x).mp hx
        obtain ⟨b, hb, _⟩ := hB i j hij hjn hc
        rw [hbest] at hb
        cases hb
      rw [hempty]
      rfl
  | some b =>
      obtain ⟨i, j, hij, hjn, hc, hbt⟩ := hA b hbest
      have hmem : b ∈ windowTimes n d t tgt :=
        (mem_windowTimes n d t tgt b).mpr ⟨i, j, hij, hjn, hc, hbt⟩
      have hlb : ∀ x ∈ windowTimes n d t tgt, b ≤ x := by
        intro x hx
        obtain ⟨i', j', hij', hjn', hc', rfl⟩ := (mem_windowTimes n d t tgt x).mp hx
        obtain ⟨b2, hb2, hle⟩ := hB i' j' hij' hjn' hc'
        rw [hbest] at hb2
        rw [Option.some_inj.mp hb2]
        exact hle
      exact (listMinQ_eq_some _ b hmem hlb).symm

/-- Closed form of the scan on a uniformly sampled constant-speed activity:
speed `v`, sample interval `τ`, so `d i = v·τ·i` and `t i = τ·i`.  The best
time for a target is `τ·⌈target/(v·τ)⌉` — the smallest whole number of sample
intervals whose distance reaches the target. -/
lemma bestEffort_uniform (v τ tgt : ℚ) (n : ℕ) (hv : 0 < v) (hτ : 0 < τ)
    (htgt : 0 < tgt) (hK : (⌈tgt / (v * τ)⌉).toNat < n) :
    bestEffortTime n (fun i => v * τ * i) (fun i => τ * i) tgt =
      some (τ * ((⌈tgt / (v * τ)⌉).toNat : ℚ)) := by
  have hvτ : 0 < v * τ := mul_pos hv hτ
  have hceil_pos : 0 < ⌈tgt / (v * τ)⌉ := by
    apply Int.ceil_pos.mpr
    positivity
  set K : ℕ := (⌈tgt / (v * τ)⌉).toNat with hKdef
  have hKcast : (K : ℚ) = (⌈tgt / (v * τ)⌉ : ℚ) := by
    rw [hKdef]
    exact_mod_cast congrArg Int.cast (Int.toNat_of_nonneg (le_of_lt hceil_pos))
  have hKge : tgt / (v * τ) ≤ (K : ℚ) := by
    rw [hKcast]
    exact Int.le_ceil _
  have hK1 : 1 ≤ K := by
    rw [hKdef]
    omega
  have hd : ∀ i j : ℕ, i ≤ j → j < n → v * τ * i ≤ v * τ * j := by
    intro i j hij _
    have : (i : ℚ) ≤ (j : ℚ) := by exact_mod_cast hij
    nlinarith
  have ht : ∀ i j : ℕ, i < j → j < n → τ * i < τ * j := by
    intro i j hij _
    have : (i : ℚ) < (j : ℚ) := by exact_mod_cast hij
    nlinarith
  rw [bestEffortTime_eq_min n _ _ tgt hd ht]
  apply listMinQ_eq_some
  · apply (mem_windowTimes n _ _ tgt _).mpr
    refine ⟨0, K, by omega, hK, ?_, by push_cast; ring⟩
    have : tgt ≤ v * τ * (K : ℚ) := by
      rw [div_le_iff₀ hvτ] at hKge
      linarith [hKge]
    push_cast
    linarith
  · intro x hx
    obtain ⟨i, j, hij, hjn, hc, rfl⟩ := (mem_windowTimes n _ _ tgt x).mp hx
    have hspan : tgt ≤ v * τ * ((j : ℚ) - (i : ℚ)) := by
      have : v * τ * (j : ℚ) - v * τ * (i : ℚ) = v * τ * ((j : ℚ) - (i : ℚ)) := by ring
      linarith [hc, this.symm.le, this.le]
    have hdiv : tgt / (v * τ) ≤ (j : ℚ) - (i : ℚ) := by
      rw [div_le_iff₀ hvτ]
      linarith
    have hji : ((j - i : ℕ) : ℚ) = (j : ℚ) - (i : ℚ) := by
      push_cast [Nat.cast_sub (le_of_lt hij)]
      ring
    have hKle : K ≤ j - i := by
      have h1 : (⌈tgt / (v * τ)⌉ : ℤ) ≤ ((j - i : ℕ) : ℤ) := by
        apply Int.ceil_le.mpr
        push_cast
        rw [hji]
        exact hdiv
      omega
    have : τ * (K : ℚ) ≤ τ * ((j : ℚ) - (i : ℚ)) := by
      rw [← hji]
      have : (K : ℚ) ≤ ((j - i : ℕ) : ℚ) := by exact_mod_cast hKle
      nlinarith
    linarith [this]

end CourseScope

namespace CourseScope

/-- **C4 (amended).** For each target, `compute_best_efforts` returns the
minimum elapsed time over all sample windows whose cumulative-distance span
reaches the target (for any table with non-decreasing distance and strictly
increasing elapsed time), and leaves the time undefined exactly when no window
reaches the target.  For an activity recorded at constant speed `v` with
uniform sample interval `τ`, the returned time is `τ·⌈target/(v·τ)⌉` — the
smallest whole number of sample intervals covering the target — which equals
`target/v` exactly when the target is a whole number of per-sample distances
`v·τ` (discretisation otherwise rounds the time up to the next sample). -/
theorem best_efforts_min_over_windows :
    (∀ (n : ℕ) (d t : ℕ → ℚ) (tgt : ℚ),
      (∀ i j, i ≤ j → j < n → d i ≤ d j) →
      (∀ i j, i < j → j < n → t i < t j) →
      bestEffortTime n d t tgt = listMinQ (windowTimes n d t tgt) ∧
      (bestEffortTime n d t tgt = none ↔ windowTimes n d t tgt = [])) ∧
    (∀ (v τ tgt : ℚ) (n : ℕ), 0 < v → 0 < τ → 0 < tgt →
      (⌈tgt / (v * τ)⌉).toNat < n →
      bestEffortTime n (fun i => v * τ * i) (fun i => τ * i) tgt =
        some (τ * ((⌈tgt / (v * τ)⌉).toNat : ℚ)) ∧
      (((⌈tgt / (v * τ)⌉).toNat : ℚ) = tgt / (v * τ) →
        bestEffortTime n (fun i => v * τ * i) (fun i => τ * i) tgt = some (tgt / v))) := by
  constructor
  · intro n d t tgt hd ht
    have heq := bestEffortTime_eq_min n d t tgt hd ht
    refine ⟨heq, ?_⟩
    rw [heq, listMinQ_none_iff]
  · intro v τ tgt n hv hτ htgt hK
    have heq := bestEffort_uniform v τ tgt n hv hτ htgt hK
    refine ⟨heq, ?_⟩
    intro hmul
    rw [heq, hmul]
    congr 1
    field_simp
    ring

/-- Witness for the amended C4: constant speed 2 m/s sampled every second,
target 4 m: best time `⌈4/2⌉ = 2` seconds. -/
theorem best_efforts_min_over_windows_witness :
    bestEffortTime 5 (fun i => 2 * 1 * (i : ℚ)) (fun i => 1 * (i : ℚ)) 4 = some 2 := by
  have hceil : (⌈(4 : ℚ) / (2 * 1)⌉) = 2 := by
    rw [Int.ceil_eq_iff] <;> norm_num
  have h := (best_efforts_min_over_windows.2 2 1 4 5 (by norm_num) (by norm_num)
    (by norm_num) (by rw [hceil]; norm_num)).1
  rw [hceil] at h
  simpa using h

/-- **C4 (counterexample).** Constant speed 3 m/s sampled every second for 335
points (total distance 1002 m ≥ 1 km): distance spans are multiples of 3 m, so
the smallest window reaching 1000 m spans 334 samples and the returned time
for the 1 km target is 334 s, not `target/v = 1000/3 s`. -/
theorem best_effort_constant_speed_counterexample :
    bestEffortTime 335 (fun i => 3 * (i : ℚ)) (fun i => (i : ℚ)) 1000 = some 334 ∧
    (computeBestEfforts 335 (fun i => 3 * (i : ℚ)) (fun i => (i : ℚ))).get? 0 =
      some (1, some 334, some 334) ∧
    (334 : ℚ) ≠ 1000 / 3 ∧
    1000 ≤ 3 * ((334 : ℕ) : ℚ) := by
  have hceil : (⌈(1000 : ℚ) / (3 * 1)⌉) = 334 := by
    rw [Int.ceil_eq_iff] <;> norm_num
  have hfd : (fun i : ℕ => 3 * 1 * (i : ℚ)) = (fun i : ℕ => 3 * (i : ℚ)) := by
    funext i
    ring
  have hft : (fun i : ℕ => 1 * (i : ℚ)) = (fun i : ℕ => (i : ℚ)) := by
    funext i
    ring
  have h := bestEffort_uniform 3 1 1000 335 (by norm_num) (by norm_num) (by norm_num)
    (by rw [hceil]; norm_num)
  rw [hceil, hfd, hft] at h
  have htn : (((334 : ℤ).toNat : ℕ) : ℚ) = 334 := by
    have h0 : ((334 : ℤ).toNat : ℕ) = 334 := rfl
    rw [h0]
    norm_num
  rw [htn] at h
  norm_num at h
  refine ⟨h, ?_, by norm_num, by norm_num⟩
  rw [computeBestEfforts, bestEffortTargets]
  simp only [List.map_cons, List.get?]
  norm_num [h]

end CourseScope

namespace CourseScope

/-! ## `compute_splits` (`backend/core/real_run_analysis.py:253`)

The input is the pair of columns `(distance_m, elapsed_time_s)` as a list of
rows (the elevation and heart-rate columns only feed their own output columns
and are omitted; with those sensors absent the code yields constant 0 / `NaN`
for them).  The pandas steps

```
working = working.sort_values("elapsed_time_s")
working["distance_m"] = working["distance_m"].cummax()
dt = working["elapsed_time_s"].diff().fillna(0.0)
dd = working["distance_m"].diff().fillna(0.0)
moving = (dt > 0) & (dd > 0.5)
working["moving_time_s"] = dt.where(moving, 0.0).cumsum()
dist_x, moving_y = _unique_xy(working["distance_m"], working["moving_time_s"])
```

are modelled by the state walk `curveGo` (state: running distance maximum =
`cummax`, previous elapsed time = the `diff` operand, accumulated moving time
= the `cumsum`), followed by `groupLast` for `groupby("x").last()`. -/

/-- One split row: 1-based index, length, moving time, pace (`NaN` when the
moving time is not positive). -/
structure SplitRow where
  split_index : ℕ
  distance_km : ℚ
  time_s : ℚ
  pace_s_per_km : Option ℚ
deriving DecidableEq

/-- `sort_values("elapsed_time_s")` on `(distance, elapsed)` rows. -/
def sortByElapsed (rows : List (ℚ × ℚ)) : List (ℚ × ℚ) :=
  List.insertionSort (fun p q : ℚ × ℚ => p.2 ≤ q.2) rows

/-- The cummax / diff / moving-mask / cumsum walk producing the
`(distance_m, moving_time_s)` sample pairs (all samples after the first). -/
def curveGo (maxD prevT acc : ℚ) : List (ℚ × ℚ) → List (ℚ × ℚ)
  | [] => []
  | (dv, tv) :: rest =>
      let m := max maxD dv
      let c := acc + (if 0 < tv - prevT ∧ 1/2 < m - maxD then tv - prevT else 0)
      (m, c) :: curveGo m tv c rest

/-- The full `(distance_m, moving_time_s)` sample list: the first row has
`diff = NaN → 0`, hence moving time `0`. -/
def curvePairs : List (ℚ × ℚ) → List (ℚ × ℚ)
  | [] => []
  | (dv, tv) :: rest => (dv, 0) :: curveGo dv tv 0 rest

/-- The per-interval moving-time contributions `dt.where(moving, 0.0)` of the
walk (whose running sums are the `moving_time_s` column). -/
def contribsGo (maxD prevT : ℚ) : List (ℚ × ℚ) → List ℚ
  | [] => []
  | (dv, tv) :: rest =>
      (if 0 < tv - prevT ∧ 1/2 < max maxD dv - maxD then tv - prevT else 0) ::
        contribsGo (max maxD dv) tv rest

def movingContribs : List (ℚ × ℚ) → List ℚ
  | [] => []
  | (dv, tv) :: rest => 0 :: contribsGo dv tv rest

/-- `_unique_xy(distance, moving_time)`: the moving-time-vs-distance curve. -/
def splitsCurve (rows : List (ℚ × ℚ)) : List (ℚ × ℚ) :=
  groupLast (curvePairs (sortByElapsed rows))

/-- `total_distance_m = dist_x[-1]` (the monotone-enforced total distance). -/
def splitsTotal (rows : List (ℚ × ℚ)) : ℚ :=
  ((splitsCurve rows).getLastD (0, 0)).1

/-- `compute_splits`: split boundaries at `0, 1 km, …, n·1 km` plus the final
partial remainder; per split, boundary-interpolated moving time and pace. -/
def computeSplits (rows : List (ℚ × ℚ)) (splitKm : ℚ) : List SplitRow :=
  if rows.isEmpty then []
  else
    let curve := splitsCurve rows
    if curve.isEmpty then []
    else
      let total := (curve.getLastD (0, 0)).1
      if total ≤ 0 then []
      else
        let splitM := splitKm * 1000
        let nFull := (total / splitM).floor.toNat
        let base := (0 : ℚ) :: (List.range nFull).map (fun k : ℕ => ((k : ℚ) + 1) * splitM)
        let boundaries := if base.getLastD 0 < total then base ++ [total] else base
        ((boundaries.zip boundaries.tail).enum).filterMap fun ip =>
          if ip.2.2 ≤ ip.2.1 then none
          else
            let dkm := (ip.2.2 - ip.2.1) / 1000
            if dkm ≤ 0 then none
            else
              let ts := interpQ ip.2.2 curve - interpQ ip.2.1 curve
              some { split_index := ip.1 + 1, distance_km := dkm, time_s := ts,
                     pace_s_per_km := if 0 < ts then some (ts / dkm) else none }

/-- Insertion of a standing pause after row `k`: a duplicate of row `k`'s
position `P` seconds later, with all subsequent timestamps shifted by `P`
(the table stays ordered by elapsed time). -/
def insertPause (P : ℚ) : ℕ → List (ℚ × ℚ) → List (ℚ × ℚ)
  | _, [] => []
  | 0, r :: rs => r :: (r.1, r.2 + P) :: rs.map (fun p => (p.1, p.2 + P))
  | k + 1, r :: rs => r :: insertPause P k rs

/-- Duplication of the element at index `k` (for relating the walks of the
original and pause-inserted tables). -/
def dupIdx {α : Type} (k : ℕ) : List α → List α
  | [] => []
  | x :: xs =>
      match k with
      | 0 => x :: x :: xs
      | k + 1 => x :: dupIdx k xs

end CourseScope

namespace CourseScope

/-! ### Lemmas about `groupLast`, the curve walk, and `interpQ` -/

lemma groupLast_ne_nil (l : List (ℚ × ℚ)) (h : l ≠ []) : groupLast l ≠ [] := by
  induction l with
  | nil => exact absurd rfl h
  | cons p l ih =>
      match l with
      | [] => simp [groupLast]
      | q :: l' =>
          rw [groupLast]
          split_ifs with hpq
          · exact ih (by simp)
          · simp

lemma getLastD_cons_cons {α : Type} (p q : α) (l : List α) (z z' : α) :
    (p :: q :: l).getLastD z = (q :: l).getLastD z' := by
  simp only [List.getLastD_cons]

lemma groupLast_getLastD (l : List (ℚ × ℚ)) : ∀ z, (groupLast l).getLastD z = l.getLastD z := by
  induction l with
  | nil => intro z; rfl
  | cons p l ih =>
      intro z
      match l with
      | [] => rfl
      | q :: l' =>
          rw [groupLast]
          split_ifs with hpq
          · rw [ih z, getLastD_cons_cons p q l' z z]
          · match hg : groupLast (q :: l') with
            | [] => exact absurd hg (groupLast_ne_nil _ (by simp))
            | r :: rs =>
                rw [List.getLastD_cons, ← hg, ih p, getLastD_cons_cons p q l' z p]

lemma groupLast_headD_fst (l : List (ℚ × ℚ)) : ∀ z, ((groupLast l).headD z).1 = (l.headD z).1 := by
  induction l with
  | nil => intro z; rfl
  | cons p l ih =>
      intro z
      match l with
      | [] => rfl
      | q :: l' =>
          rw [groupLast]
          split_ifs with hpq
          · rw [ih z]
            simpa using hpq.symm
          · rfl

lemma groupLast_headD (l : List (ℚ × ℚ))
    (h : List.Chain' (fun p q : ℚ × ℚ => p.1 = q.1 → p.2 = q.2) l) :
    ∀ z, (groupLast l).headD z = l.headD z := by
  induction l with
  | nil => intro z; rfl
  | cons p l ih =>
      intro z
      match l with
      | [] => rfl
      | q :: l' =>
          obtain ⟨hpq, hrest⟩ := List.chain'_cons.mp h
          rw [groupLast]
          split_ifs with heq
          · rw [ih hrest z]
            have : p = q := Prod.ext heq (hpq heq)
            simp [this]
          · rfl

lemma groupLast_chain_lt (l : List (ℚ × ℚ))
    (h : List.Chain' (fun p q : ℚ × ℚ => p.1 ≤ q.1) l) :
    List.Chain' (fun p q : ℚ × ℚ => p.1 < q.1) (groupLast l) := by
  induction l with
  | nil => exact List.chain'_nil
  | cons p l ih =>
      match l with
      | [] => simp [groupLast]
      | q :: l' =>
          obtain ⟨hpq, hrest⟩ := List.chain'_cons.mp h
          rw [groupLast]
          split_ifs with heq
          · exact ih hrest
          · rw [List.chain'_cons']
            refine ⟨?_, ih hrest⟩
            intro y hy
            have hne : groupLast (q :: l') ≠ [] := groupLast_ne_nil _ (by simp)
            have hy' : y = (groupLast (q :: l')).headD (0, 0) := by
              match hg : groupLast (q :: l') with
              | [] => exact absurd hg hne
              | r :: rs =>
                  rw [hg] at hy
                  simp at hy
                  simp [hy]
            have hfst : ((groupLast (q :: l')).headD (0, 0)).1 = q.1 := by
              rw [groupLast_headD_fst]
              rfl
            rw [hy', hfst]
            exact lt_of_le_of_ne hpq heq

lemma curveGo_ne_nil (l : List (ℚ × ℚ)) (h : l ≠ []) (m t c : ℚ) :
    curveGo m t c l ≠ [] := by
  match l with
  | [] => exact absurd rfl h
  | (dv, tv) :: rest => simp [curveGo]

lemma curveGo_chain_adj : ∀ (l : List (ℚ × ℚ)) (m t c : ℚ),
    List.Chain' (fun p q : ℚ × ℚ => p.1 = q.1 → p.2 = q.2) ((m, c) :: curveGo m t c l) := by
  intro l
  induction l with
  | nil => intro m t c; simp [curveGo]
  | cons r rest ih =>
      intro m t c
      match r with
      | (dv, tv) =>
          rw [curveGo]
          rw [List.chain'_cons]
          constructor
          · intro hmm
            have hmm' : m = max m dv := hmm
            show c = c + (if 0 < tv - t ∧ 1/2 < max m dv - m then tv - t else 0)
            rw [if_neg]
            · ring
            · rintro ⟨_, hb⟩
              rw [← hmm', sub_self] at hb
              norm_num at hb
          · exact ih (max m dv) tv _

lemma curveGo_chain_le : ∀ (l : List (ℚ × ℚ)) (m t c : ℚ),
    List.Chain' (fun p q : ℚ × ℚ => p.1 ≤ q.1) ((m, c) :: curveGo m t c l) := by
  intro l
  induction l with
  | nil => intro m t c; simp [curveGo]
  | cons r rest ih =>
      intro m t c
      match r with
      | (dv, tv) =>
          rw [curveGo, List.chain'_cons]
          exact ⟨le_max_left m dv, ih (max m dv) tv _⟩

lemma curvePairs_chain_adj (rows : List (ℚ × ℚ)) :
    List.Chain' (fun p q : ℚ × ℚ => p.1 = q.1 → p.2 = q.2) (curvePairs rows) := by
  match rows with
  | [] => exact List.chain'_nil
  | (dv, tv) :: rest => exact curveGo_chain_adj rest dv tv 0

lemma curvePairs_chain_le (rows : List (ℚ × ℚ)) :
    List.Chain' (fun p q : ℚ × ℚ => p.1 ≤ q.1) (curvePairs rows) := by
  match rows with
  | [] => exact List.chain'_nil
  | (dv, tv) :: rest => exact curveGo_chain_le rest dv tv 0

lemma curveGo_last_y : ∀ (l : List (ℚ × ℚ)) (m t c : ℚ), l ≠ [] →
    ((curveGo m t c l).getLastD (0, 0)).2 = c + (contribsGo m t l).sum := by
  intro l
  induction l with
  | nil => intro m t c h; exact absurd rfl h
  | cons r rest ih =>
      intro m t c _
      match r with
      | (dv, tv) =>
          rw [curveGo, contribsGo]
          match hrest : rest with
          | [] => simp [curveGo, contribsGo]
          | r2 :: rest2 =>
              rw [List.getLastD_cons, List.sum_cons]
              have hne : r2 :: rest2 ≠ [] := by simp
              match hg : curveGo (max m dv) tv
                  (c + if 0 < tv - t ∧ 1/2 < max m dv - m then tv - t else 0) (r2 :: rest2) with
              | [] => exact absurd hg (curveGo_ne_nil _ hne _ _ _)
              | s :: ss =>
                  rw [List.getLastD_cons, ← List.getLastD_cons ((0 : ℚ), (0 : ℚ)) s ss, ← hg]
                  rw [ih (max m dv) tv _ hne]
                  ring

lemma curvePairs_last_y (rows : List (ℚ × ℚ)) (h : rows ≠ []) :
    ((curvePairs rows).getLastD (0, 0)).2 = (movingContribs rows).sum := by
  match rows with
  | (dv, tv) :: rest =>
      rw [curvePairs, movingContribs]
      match hrest : rest with
      | [] => simp [curveGo, contribsGo]
      | r2 :: rest2 =>
          rw [List.getLastD_cons, List.sum_cons]
          have hne : r2 :: rest2 ≠ [] := by simp
          match hg : curveGo dv tv 0 (r2 :: rest2) with
          | [] => exact absurd hg (curveGo_ne_nil _ hne _ _ _)
          | s :: ss =>
              rw [List.getLastD_cons, ← List.getLastD_cons ((0 : ℚ), (0 : ℚ)) s ss, ← hg]
              rw [curveGo_last_y _ dv tv 0 hne]

end CourseScope

namespace CourseScope

lemma chain_lt_headD_le_getLastD (l : List (ℚ × ℚ))
    (h : List.Chain' (fun p q : ℚ × ℚ => p.1 < q.1) l) :
    ∀ z, l ≠ [] → (l.headD z).1 ≤ (l.getLastD z).1 := by
  induction l with
  | nil => intro z hz; exact absurd rfl hz
  | cons p l ih =>
      intro z _
      match l with
      | [] => exact le_refl _
      | q :: l' =>
          obtain ⟨hpq, hrest⟩ := List.chain'_cons.mp h
          have := ih hrest z (by simp)
          rw [getLastD_cons_cons p q l' z z]
          simp only [List.headD_cons] at this ⊢
          linarith

lemma interpQ_head (x : ℚ) (p : ℚ × ℚ) (rest : List (ℚ × ℚ)) (hx : x ≤ p.1) :
    interpQ x (p :: rest) = p.2 := by
  match p, rest with
  | (x0, y0), [] => rfl
  | (x0, y0), (x1, y1) :: rs =>
      rw [interpQ, if_pos hx]

lemma interpQ_getLastD (l : List (ℚ × ℚ))
    (h : List.Chain' (fun p q : ℚ × ℚ => p.1 < q.1) l) (hne : l ≠ []) :
    interpQ ((l.getLastD (0, 0)).1) l = (l.getLastD (0, 0)).2 := by
  induction l with
  | nil => exact absurd rfl hne
  | cons p l ih =>
      match p, l with
      | (x0, y0), [] => rfl
      | (x0, y0), (x1, y1) :: rest =>
          obtain ⟨hpq, hrest⟩ := List.chain'_cons.mp h
          simp only at hpq
          have hlast : ((x0, y0) :: (x1, y1) :: rest).getLastD (0, 0) =
              ((x1, y1) :: rest).getLastD (0, 0) :=
            getLastD_cons_cons _ _ _ _ _
          have hx1le : x1 ≤ (((x1, y1) :: rest).getLastD (0, 0)).1 := by
            have := chain_lt_headD_le_getLastD ((x1, y1) :: rest) hrest (0, 0) (by simp)
            simpa using this
          rw [hlast, interpQ]
          rw [if_neg (by rw [not_le]; linarith)]
          match rest with
          | [] =>
              simp only [List.getLastD_cons, List.getLastD_nil]
              rw [if_pos (le_refl x1)]
              have hne0 : x1 - x0 ≠ 0 := by
                intro hz
                apply absurd hpq
                simp only [not_lt]
                linarith
              field_simp
          | (x2, y2) :: rs =>
              obtain ⟨h12, hrest2⟩ := List.chain'_cons.mp hrest
              simp only at h12
              have hx2le : x2 ≤ (((x2, y2) :: rs).getLastD (0, 0)).1 := by
                have := chain_lt_headD_le_getLastD ((x2, y2) :: rs) hrest2 (0, 0) (by simp)
                simpa using this
              have hlast2 : (((x1, y1) :: (x2, y2) :: rs).getLastD (0, 0)) =
                  (((x2, y2) :: rs).getLastD (0, 0)) :=
                getLastD_cons_cons _ _ _ _ _
              rw [if_neg]
              · have := ih hrest (by simp)
                rw [hlast2] at this ⊢
                exact this
              · rw [hlast2]
                simp only [not_le]
                linarith

lemma chain_lt_zip_tail (bs : List ℚ) (h : List.Chain' (· < ·) bs) :
    ∀ p ∈ bs.zip bs.tail, p.1 < p.2 := by
  induction bs with
  | nil => intro p hp; simp at hp
  | cons x bs ih =>
      intro p hp
      match bs with
      | [] => simp at hp
      | y :: bs' =>
          obtain ⟨hxy, hrest⟩ := List.chain'_cons.mp h
          simp only [List.tail_cons, List.zip_cons_cons] at hp
          rcases List.mem_cons.mp hp with h1 | h1
          · rw [h1]; exact hxy
          · exact ih hrest p (by simpa using h1)

lemma zip_tail_telescope (g : ℚ → ℚ) : ∀ (bs : List ℚ), bs ≠ [] →
    ((bs.zip bs.tail).map (fun p => g p.2 - g p.1)).sum =
      g (bs.getLastD 0) - g (bs.headD 0) := by
  intro bs
  induction bs with
  | nil => intro hz; exact absurd rfl hz
  | cons x bs ih =>
      intro _
      match bs with
      | [] => simp
      | y :: bs' =>
          have := ih (by simp)
          simp only [List.tail_cons, List.zip_cons_cons, List.map_cons, List.sum_cons,
            List.headD_cons] at this ⊢
          rw [getLastD_cons_cons x y bs' 0 0]
          rw [this]
          ring

lemma filterMap_eq_map_of_some {γ β : Type} (L : List γ) (F : γ → Option β) (G : γ → β)
    (h : ∀ x ∈ L, F x = some (G x)) : L.filterMap F = L.map G := by
  induction L with
  | nil => rfl
  | cons x L ih =>
      rw [List.filterMap_cons, h x (by simp), List.map_cons,
        ih (fun y hy => h y (by simp [hy]))]

lemma enum_map_val {α β : Type} (l : List α) (h : α → β) :
    l.enum.map (fun ip => h ip.2) = l.map h := by
  have h1 : (fun ip : ℕ × α => h ip.2) = h ∘ Prod.snd := rfl
  rw [h1, ← List.map_map, List.enum_map_snd]

end CourseScope

namespace CourseScope

lemma sortByElapsed_ne_nil (rows : List (ℚ × ℚ)) (h : rows ≠ []) :
    sortByElapsed rows ≠ [] := by
  intro hz
  apply h
  have hlen := List.length_insertionSort (fun p q : ℚ × ℚ => p.2 ≤ q.2) rows
  rw [sortByElapsed] at hz
  rw [hz] at hlen
  exact List.length_eq_zero.mp hlen.symm

lemma curvePairs_ne_nil (l : List (ℚ × ℚ)) (h : l ≠ []) : curvePairs l ≠ [] := by
  match l with
  | (dv, tv) :: rest => simp [curvePairs]

lemma splitsCurve_ne_nil (rows : List (ℚ × ℚ)) (h : rows ≠ []) : splitsCurve rows ≠ [] :=
  groupLast_ne_nil _ (curvePairs_ne_nil _ (sortByElapsed_ne_nil rows h))

lemma splitsCurve_chain_lt (rows : List (ℚ × ℚ)) :
    List.Chain' (fun p q : ℚ × ℚ => p.1 < q.1) (splitsCurve rows) :=
  groupLast_chain_lt _ (curvePairs_chain_le _)

set_option maxHeartbeats 1000000 in
/-- Post-guard form of `compute_splits`: the boundary list exists with first
element `0`, last element the total monotone-enforced distance, strictly
increasing, and the output is one row per consecutive boundary pair. -/
lemma computeSplits_map_form (rows : List (ℚ × ℚ)) (splitKm : ℚ)
    (hne : rows ≠ []) (hk : 0 < splitKm) (htot : 0 < splitsTotal rows) :
    ∃ bnds : List ℚ, bnds ≠ [] ∧ bnds.headD 0 = 0 ∧
      bnds.getLastD 0 = splitsTotal rows ∧ List.Chain' (· < ·) bnds ∧
      computeSplits rows splitKm =
        ((bnds.zip bnds.tail).enum).map (fun ip =>
          { split_index := ip.1 + 1, distance_km := (ip.2.2 - ip.2.1) / 1000,
            time_s := interpQ ip.2.2 (splitsCurve rows) - interpQ ip.2.1 (splitsCurve rows),
            pace_s_per_km := if 0 < interpQ ip.2.2 (splitsCurve rows) -
                interpQ ip.2.1 (splitsCurve rows)
              then some ((interpQ ip.2.2 (splitsCurve rows) -
                interpQ ip.2.1 (splitsCurve rows)) / ((ip.2.2 - ip.2.1) / 1000))
              else none }) := by
  simp only [splitsTotal] at htot
  have hsM : 0 < splitKm * 1000 := by positivity
  set total := ((splitsCurve rows).getLastD (0, 0)).1 with htotal
  set splitM := splitKm * 1000 with hsplitM
  set nFull := (total / splitM).floor.toNat with hnFull
  set base := (0 : ℚ) :: (List.range nFull).map (fun k : ℕ => ((k : ℚ) + 1) * splitM) with hbase
  have hbase_eq : base = (List.range (nFull + 1)).map (fun k : ℕ => (k : ℚ) * splitM) := by
    rw [hbase, List.range_succ_eq_map, List.map_cons, List.map_map]
    congr 1
    · norm_num
    · apply List.map_congr_left
      intro a _
      simp only [Function.comp_apply]
      push_cast
      ring
  have hbase_chain : List.Chain' (· < ·) base := by
    rw [hbase_eq, List.chain'_map, List.chain'_range_succ]
    intro m _
    have hc : (m : ℚ) < ((m + 1 : ℕ) : ℚ) := by push_cast; linarith
    exact mul_lt_mul_of_pos_right hc hsM
  have hbase_last : base.getLastD 0 = (nFull : ℚ) * splitM := by
    rw [hbase_eq, List.range_succ, List.map_append]
    simp [List.getLastD_concat]
  have hbase_head : base.headD 0 = 0 := by rw [hbase]; rfl
  have hfloor_le : (nFull : ℚ) * splitM ≤ total := by
    have h0 : (0:ℤ) ≤ (total / splitM).floor :=
      Int.floor_nonneg.mpr (le_of_lt (div_pos htot hsM))
    have hcast : ((nFull : ℕ) : ℚ) = (((total / splitM).floor : ℤ) : ℚ) := by
      rw [hnFull]
      exact_mod_cast congrArg (fun z : ℤ => (z : ℚ)) (Int.toNat_of_nonneg h0)
    rw [hcast, ← le_div_iff₀ hsM]
    exact Int.floor_le (total / splitM)
  set bnds := if base.getLastD 0 < total then base ++ [total] else base with hbnds
  have hbnds_ne : bnds ≠ [] := by
    rw [hbnds]
    split_ifs
    · simp [hbase]
    · simp [hbase]
  have hbnds_head : bnds.headD 0 = 0 := by
    rw [hbnds]
    split_ifs
    · rw [hbase, List.cons_append, List.headD_cons]
    · exact hbase_head
  have hbnds_last : bnds.getLastD 0 = total := by
    rw [hbnds]
    split_ifs with hlt
    · exact List.getLastD_concat _ _ _
    · rw [hbase_last]
      rw [hbase_last] at hlt
      linarith [not_lt.mp hlt]
  have hbnds_chain : List.Chain' (· < ·) bnds := by
    rw [hbnds]
    split_ifs with hlt
    · rw [List.chain'_append]
      refine ⟨hbase_chain, List.chain'_singleton _, ?_⟩
      intro x hx y hy
      simp only [List.head?_cons, Option.mem_def, Option.some_inj] at hy
      have hxval : x = base.getLastD 0 := by
        rw [List.getLastD_eq_getLast?]
        rw [Option.mem_def] at hx
        rw [hx]
        rfl
      rw [hxval, ← hy]
      exact hlt
    · exact hbase_chain
  refine ⟨bnds, hbnds_ne, hbnds_head, ?_, hbnds_chain, ?_⟩
  · rw [hbnds_last, htotal, splitsTotal]
  · rw [computeSplits]
    rw [if_neg (by rw [List.isEmpty_iff]; exact hne)]
    simp only
    rw [if_neg (by rw [List.isEmpty_iff]; exact splitsCurve_ne_nil rows hne)]
    rw [if_neg (not_le.mpr htot)]
    apply filterMap_eq_map_of_some
    intro ip hip
    have hmem : ip.2 ∈ bnds.zip bnds.tail := by
      have h1 : ip.2 ∈ (bnds.zip bnds.tail).enum.map Prod.snd :=
        List.mem_map_of_mem Prod.snd hip
      rwa [List.enum_map_snd] at h1
    have hab : ip.2.1 < ip.2.2 := chain_lt_zip_tail bnds hbnds_chain ip.2 hmem
    rw [if_neg (not_le.mpr hab)]
    rw [if_neg (not_le.mpr (by linarith : (0:ℚ) < (ip.2.2 - ip.2.1) / 1000))]

end CourseScope

namespace CourseScope

set_option maxHeartbeats 1000000 in
/-- Conservation: summed split lengths give the monotone-enforced total
distance, summed split moving times give the total accumulated moving time. -/
lemma splits_sums (rows : List (ℚ × ℚ)) (splitKm : ℚ) (hne : rows ≠ [])
    (hk : 0 < splitKm) (hpos : ∀ p ∈ rows, 0 ≤ p.1) (htot : 0 < splitsTotal rows) :
    ((computeSplits rows splitKm).map (fun r => r.distance_km)).sum = splitsTotal rows / 1000 ∧
    ((computeSplits rows splitKm).map (fun r => r.time_s)).sum =
      (movingContribs (sortByElapsed rows)).sum := by
  obtain ⟨bnds, hbne, hhead, hlast, hchain, hform⟩ :=
    computeSplits_map_form rows splitKm hne hk htot
  have hsne : sortByElapsed rows ≠ [] := sortByElapsed_ne_nil rows hne
  constructor
  · rw [hform, List.map_map]
    have h1 : ((bnds.zip bnds.tail).enum).map
        (fun ip : ℕ × (ℚ × ℚ) => (ip.2.2 - ip.2.1) / 1000) =
        (bnds.zip bnds.tail).map (fun p => (p.2 - p.1) / 1000) :=
      enum_map_val (bnds.zip bnds.tail) (fun p : ℚ × ℚ => (p.2 - p.1) / 1000)
    show ((bnds.zip bnds.tail).enum.map
        (fun ip : ℕ × (ℚ × ℚ) => (ip.2.2 - ip.2.1) / 1000)).sum = splitsTotal rows / 1000
    rw [h1]
    have h2 : (bnds.zip bnds.tail).map (fun p => (p.2 - p.1) / 1000) =
        (bnds.zip bnds.tail).map (fun p => p.2 / 1000 - p.1 / 1000) := by
      apply List.map_congr_left
      intro p _
      ring
    rw [h2, zip_tail_telescope (fun x => x / 1000) bnds hbne, hlast, hhead]
    norm_num
  · rw [hform, List.map_map]
    have h1 : ((bnds.zip bnds.tail).enum).map
        (fun ip : ℕ × (ℚ × ℚ) =>
          interpQ ip.2.2 (splitsCurve rows) - interpQ ip.2.1 (splitsCurve rows)) =
        (bnds.zip bnds.tail).map
          (fun p => interpQ p.2 (splitsCurve rows) - interpQ p.1 (splitsCurve rows)) :=
      enum_map_val (bnds.zip bnds.tail)
        (fun p : ℚ × ℚ => interpQ p.2 (splitsCurve rows) - interpQ p.1 (splitsCurve rows))
    show ((bnds.zip bnds.tail).enum.map
        (fun ip : ℕ × (ℚ × ℚ) =>
          interpQ ip.2.2 (splitsCurve rows) - interpQ ip.2.1 (splitsCurve rows))).sum =
      (movingContribs (sortByElapsed rows)).sum
    rw [h1]
    rw [zip_tail_telescope (fun x => interpQ x (splitsCurve rows)) bnds hbne, hlast, hhead]
    have hlastv : interpQ (splitsTotal rows) (splitsCurve rows) =
        (movingContribs (sortByElapsed rows)).sum := by
      have h3 : splitsTotal rows = ((splitsCurve rows).getLastD (0, 0)).1 := rfl
      rw [h3, interpQ_getLastD _ (splitsCurve_chain_lt rows) (splitsCurve_ne_nil rows hne)]
      rw [splitsCurve, groupLast_getLastD]
      exact curvePairs_last_y _ hsne
    have hfirstv : interpQ 0 (splitsCurve rows) = 0 := by
      have hheadc : (splitsCurve rows).headD (0, 0) =
          (curvePairs (sortByElapsed rows)).headD (0, 0) := by
        rw [splitsCurve, groupLast_headD _ (curvePairs_chain_adj _)]
      match hs : sortByElapsed rows with
      | [] => exact absurd hs hsne
      | (dv, tv) :: srest =>
          have hd0 : 0 ≤ dv := by
            have hmem : (dv, tv) ∈ sortByElapsed rows := by rw [hs]; simp
            have hmem2 : (dv, tv) ∈ rows :=
              (List.perm_insertionSort (fun p q : ℚ × ℚ => p.2 ≤ q.2) rows).mem_iff.mp hmem
            exact hpos (dv, tv) hmem2
          have hcp : curvePairs (sortByElapsed rows) =
              (dv, 0) :: curveGo dv tv 0 srest := by rw [hs, curvePairs]
          match hc : splitsCurve rows with
          | [] => exact absurd hc (splitsCurve_ne_nil rows hne)
          | c0 :: crest =>
              have hc0 : c0 = (dv, 0) := by
                have := hheadc
                rw [hc, hcp] at this
                simpa using this
              rw [interpQ_head 0 c0 crest (by rw [hc0]; exact hd0), hc0]
    rw [hlastv, hfirstv]
    ring

end CourseScope

namespace CourseScope

lemma curveGo_shift (P : ℚ) : ∀ (l : List (ℚ × ℚ)) (m t c : ℚ),
    curveGo m (t + P) c (l.map (fun p => (p.1, p.2 + P))) = curveGo m t c l := by
  intro l
  induction l with
  | nil => intro m t c; rfl
  | cons r rest ih =>
      intro m t c
      match r with
      | (dv, tv) =>
          simp only [List.map_cons]
          rw [curveGo, curveGo]
          have he : tv + P - (t + P) = tv - t := by ring
          rw [he, ih (max m dv) tv _]

lemma curveGo_dup_step (P dv tv m c : ℚ) (hm : dv ≤ m) (rest : List (ℚ × ℚ)) :
    curveGo m tv c ((dv, tv + P) :: rest.map (fun p => (p.1, p.2 + P)))
      = (m, c) :: curveGo m tv c rest := by
  rw [curveGo]
  have h1 : max m dv = m := max_eq_left hm
  have hcond : ¬(0 < tv + P - tv ∧ 1 / 2 < max m dv - m) := by
    rintro ⟨_, hb⟩
    rw [h1, sub_self] at hb
    norm_num at hb
  rw [if_neg hcond, add_zero, h1, curveGo_shift P rest m tv c]

lemma curveGo_insertPause (P : ℚ) : ∀ (k : ℕ) (l : List (ℚ × ℚ)) (m t c : ℚ),
    k < l.length →
    curveGo m t c (insertPause P k l) = dupIdx k (curveGo m t c l) := by
  intro k
  induction k with
  | zero =>
      intro l m t c hk
      match l with
      | [] => simp at hk
      | (dv, tv) :: rest =>
          show curveGo m t c
              ((dv, tv) :: (dv, tv + P) :: rest.map (fun p => (p.1, p.2 + P)))
            = dupIdx 0 (curveGo m t c ((dv, tv) :: rest))
          conv_lhs => rw [curveGo]
          conv_rhs => rw [curveGo]
          rw [curveGo_dup_step P dv tv (max m dv) _ (le_max_right m dv) rest]
          rfl
  | succ k ih =>
      intro l m t c hk
      match l with
      | [] => simp at hk
      | (dv, tv) :: rest =>
          rw [insertPause, curveGo, curveGo, dupIdx]
          rw [ih rest (max m dv) tv _ (by simpa using hk)]

lemma curvePairs_insertPause (P : ℚ) (k : ℕ) (rows : List (ℚ × ℚ))
    (hk : k < rows.length) :
    curvePairs (insertPause P k rows) = dupIdx k (curvePairs rows) := by
  match k, rows with
  | _, [] => simp at hk
  | 0, (dv, tv) :: rest =>
      rw [insertPause, curvePairs, curvePairs, curveGo]
      have h1 : max dv dv = dv := max_self dv
      rw [h1]
      rw [if_neg (by
        rintro ⟨_, hb⟩
        rw [sub_self] at hb
        norm_num at hb)]
      rw [add_zero, curveGo_shift P rest dv tv 0, dupIdx]
  | k + 1, (dv, tv) :: rest =>
      rw [insertPause, curvePairs, curvePairs, dupIdx]
      rw [curveGo_insertPause P k rest dv tv 0 (by simpa using hk)]

lemma dupIdx_nil {α : Type} (k : ℕ) : dupIdx k ([] : List α) = [] := by
  cases k <;> rfl

lemma groupLast_dupIdx : ∀ (l : List (ℚ × ℚ)) (k : ℕ),
    groupLast (dupIdx k l) = groupLast l := by
  intro l
  induction l with
  | nil => intro k; rw [dupIdx_nil]
  | cons x xs ih =>
      intro k
      match k with
      | 0 =>
          show groupLast (x :: x :: xs) = groupLast (x :: xs)
          rw [groupLast, if_pos rfl]
      | k + 1 =>
          match xs with
          | [] =>
              show groupLast (x :: dupIdx k []) = groupLast [x]
              rw [dupIdx_nil]
          | y :: ys =>
              show groupLast (x :: dupIdx k (y :: ys)) = groupLast (x :: y :: ys)
              have h2 : groupLast (dupIdx k (y :: ys)) = groupLast (y :: ys) := ih k
              match k with
              | 0 =>
                  show groupLast (x :: y :: y :: ys) = groupLast (x :: y :: ys)
                  have hyy : groupLast (y :: y :: ys) = groupLast (y :: ys) := by
                    rw [groupLast, if_pos rfl]
                  by_cases hxy : x.1 = y.1
                  · rw [groupLast, if_pos hxy, hyy, groupLast, if_pos hxy]
                  · rw [groupLast, if_neg hxy, hyy, groupLast, if_neg hxy]
              | j + 1 =>
                  show groupLast (x :: y :: dupIdx j ys) = groupLast (x :: y :: ys)
                  have h3 : groupLast (y :: dupIdx j ys) = groupLast (y :: ys) := by
                    have := ih (j + 1)
                    rwa [show dupIdx (j + 1) (y :: ys) = y :: dupIdx j ys from rfl] at this
                  by_cases hxy : x.1 = y.1
                  · rw [groupLast, if_pos hxy, h3, groupLast, if_pos hxy]
                  · rw [groupLast, if_neg hxy, h3, groupLast, if_neg hxy]

lemma insertPause_head? (P : ℚ) (k : ℕ) (l : List (ℚ × ℚ)) :
    (insertPause P k l).head? = l.head? := by
  match k, l with
  | 0, [] => rfl
  | _ + 1, [] => rfl
  | 0, r :: rs => rfl
  | k + 1, r :: rs => rfl

lemma insertPause_chain (P : ℚ) (hP : 0 ≤ P) : ∀ (k : ℕ) (rows : List (ℚ × ℚ)),
    List.Chain' (fun p q : ℚ × ℚ => p.2 ≤ q.2) rows →
    List.Chain' (fun p q : ℚ × ℚ => p.2 ≤ q.2) (insertPause P k rows) := by
  intro k
  induction k with
  | zero =>
      intro rows h
      match rows with
      | [] => exact List.chain'_nil
      | r :: rs =>
          obtain ⟨hhead, hrest⟩ := List.chain'_cons'.mp h
          rw [insertPause, List.chain'_cons]
          refine ⟨by simp only; linarith, ?_⟩
          rw [List.chain'_cons']
          constructor
          · intro y hy
            match rs with
            | [] => simp at hy
            | s :: ss =>
                simp only [List.map_cons, List.head?_cons, Option.mem_def,
                  Option.some_inj] at hy
                have := hhead s (by simp)
                simp only [← hy]
                simp only at this
                linarith
          · have := List.chain'_map (fun p : ℚ × ℚ => (p.1, p.2 + P))
              (R := fun p q : ℚ × ℚ => p.2 ≤ q.2) (l := rs)
            rw [this]
            apply List.Chain'.imp _ hrest
            intro a b hab
            simp only
            linarith
  | succ k ih =>
      intro rows h
      match rows with
      | [] => exact List.chain'_nil
      | r :: rs =>
          obtain ⟨hhead, hrest⟩ := List.chain'_cons'.mp h
          rw [insertPause, List.chain'_cons']
          refine ⟨?_, ih rs hrest⟩
          intro y hy
          rw [insertPause_head? P k rs] at hy
          exact hhead y hy

lemma insertPause_ne_nil (P : ℚ) (k : ℕ) (rows : List (ℚ × ℚ)) (h : rows ≠ []) :
    insertPause P k rows ≠ [] := by
  match k, rows with
  | _, [] => exact absurd rfl h
  | 0, r :: rs => simp [insertPause]
  | k + 1, r :: rs => simp [insertPause]

/-- Inserting a standing pause (duplicate position, later timestamps shifted)
leaves the whole splits table unchanged. -/
lemma computeSplits_insertPause (rows : List (ℚ × ℚ)) (splitKm P : ℚ) (k : ℕ)
    (hsorted : List.Chain' (fun p q : ℚ × ℚ => p.2 ≤ q.2) rows) (hP : 0 < P)
    (hk : k < rows.length) :
    computeSplits (insertPause P k rows) splitKm = computeSplits rows splitKm := by
  have hne : rows ≠ [] := by
    intro h
    rw [h] at hk
    simp at hk
  haveI : IsTrans (ℚ × ℚ) (fun p q : ℚ × ℚ => p.2 ≤ q.2) :=
    ⟨fun a b c h1 h2 => le_trans h1 h2⟩
  have hsort_rows : sortByElapsed rows = rows := by
    rw [sortByElapsed]
    exact List.Sorted.insertionSort_eq (List.chain'_iff_pairwise.mp hsorted)
  have hsort_ins : sortByElapsed (insertPause P k rows) = insertPause P k rows := by
    rw [sortByElapsed]
    exact List.Sorted.insertionSort_eq
      (List.chain'_iff_pairwise.mp (insertPause_chain P (le_of_lt hP) k rows hsorted))
  have hcurve : splitsCurve (insertPause P k rows) = splitsCurve rows := by
    rw [splitsCurve, splitsCurve, hsort_ins, hsort_rows,
      curvePairs_insertPause P k rows hk, groupLast_dupIdx]
  have hA : ¬((insertPause P k rows).isEmpty = true) := by
    rw [List.isEmpty_iff]; exact insertPause_ne_nil P k rows hne
  have hB : ¬(rows.isEmpty = true) := by
    rw [List.isEmpty_iff]; exact hne
  rw [computeSplits, computeSplits, hcurve, if_neg hA, if_neg hB]

end CourseScope

namespace CourseScope

/-- C5: `compute_splits` conserves totals — the split `distance_km` column sums
to the monotone-enforced total distance in km and the split `time_s` column
sums to the total accumulated moving time — and inserting an interval with
positive delta-time but no distance progress (a standing pause) leaves the
returned splits table, hence every split's time and pace, unchanged. -/
theorem splits_conservation_and_pause_insensitivity :
    (∀ (rows : List (ℚ × ℚ)) (splitKm : ℚ), rows ≠ [] → 0 < splitKm →
      (∀ p ∈ rows, 0 ≤ p.1) → 0 < splitsTotal rows →
      ((computeSplits rows splitKm).map (fun r => r.distance_km)).sum
          = splitsTotal rows / 1000 ∧
      ((computeSplits rows splitKm).map (fun r => r.time_s)).sum
          = (movingContribs (sortByElapsed rows)).sum) ∧
    (∀ (rows : List (ℚ × ℚ)) (splitKm P : ℚ) (k : ℕ),
      List.Chain' (fun p q : ℚ × ℚ => p.2 ≤ q.2) rows → 0 < P → k < rows.length →
      computeSplits (insertPause P k rows) splitKm = computeSplits rows splitKm) := by
  constructor
  · intro rows splitKm hne hk hpos htot
    exact splits_sums rows splitKm hne hk hpos htot
  · intro rows splitKm P k hs hP hk
    exact computeSplits_insertPause rows splitKm P k hs hP hk

/-- C5 witness: a 1 km activity `[(0 m, 0 s), (1000 m, 600 s)]` with 1 km
splits conserves its totals, and a 5 s standing pause inserted after the first
sample leaves the splits unchanged. -/
theorem splits_conservation_and_pause_insensitivity_witness :
    ((computeSplits [((0 : ℚ), (0 : ℚ)), (1000, 600)] 1).map
        (fun r => r.distance_km)).sum
      = splitsTotal [((0 : ℚ), (0 : ℚ)), (1000, 600)] / 1000 ∧
    computeSplits (insertPause 5 0 [((0 : ℚ), (0 : ℚ)), (1000, 600)]) 1
      = computeSplits [((0 : ℚ), (0 : ℚ)), (1000, 600)] 1 := by
  constructor
  · exact (splits_conservation_and_pause_insensitivity.1
      [((0 : ℚ), (0 : ℚ)), (1000, 600)] 1
      (by simp) (by norm_num)
      (by intro p hp; fin_cases hp <;> norm_num)
      (by norm_num [splitsTotal, splitsCurve, sortByElapsed, List.insertionSort,
        List.orderedInsert, curvePairs, curveGo, groupLast])).1
  · exact splits_conservation_and_pause_insensitivity.2
      [((0 : ℚ), (0 : ℚ)), (1000, 600)] 1 5 0
      (by norm_num [List.chain'_cons, List.chain'_singleton])
      (by norm_num) (by simp)

end CourseScope

namespace CourseScope

/-! ## `compute_climbs` (real_run_analysis.py): grid, grade, state machine,
record building and ordering.  Tunables are the source defaults:
`min_grade = 3.0`, `min_distance_m = 150.0`, `step_m = 5.0`,
`grade_window_m = 50.0`, `elev_smooth_window_m = 25.0`. -/

/-- Python 3 `round` (banker's rounding, ties to even), as used in
`int(round(...))`. -/
def pyRound (x : ℚ) : ℤ :=
  if x - ⌊x⌋ < 1/2 then ⌊x⌋
  else if 1/2 < x - ⌊x⌋ then ⌊x⌋ + 1
  else if ⌊x⌋ % 2 = 0 then ⌊x⌋ else ⌊x⌋ + 1

def stepM : ℚ := 5
def lagPts : ℕ := max 1 (pyRound (50 / stepM)).toNat
def smoothPts : ℕ := max 1 (pyRound (25 / stepM)).toNat
def continueGradePercent : ℚ := 1
def gapGradePercent : ℚ := 1/5
def gapMaxDistanceM : ℚ := 120
def gapMaxTimeS : ℚ := 30
def stopDownGradePercent : ℚ := -1
def stopDownDistanceM : ℚ := 30
def startConfirmDistanceM : ℚ := 20
def minGainM : ℚ := 15
def minDurationS : ℚ := 45
def minDistanceM : ℚ := 150

/-- The loop state of the climb state machine (the local variables of the
`for i in range(len(grid))` loop). -/
structure ClimbState where
  segments : List (ℕ × ℕ)
  in_seg : Bool
  seg_start : ℕ
  start_run_m : ℚ
  gap_m : ℚ
  gap_t : ℚ
  downhill_m : ℚ
  last_ok : ℕ
  downhill_start : ℕ
  deriving DecidableEq

/-- One iteration of the state machine at grid index `i`, grade `g`
(`none` =非-finite / NaN) and per-point time delta
`dt = time_grid[i] - time_grid[i-1]` (with `dt = 0` at `i = 0`).
Segment-index arithmetic uses truncated `ℕ` subtraction, which agrees with
the Python `max(0, …)` clamps and with the `end > seg_start` guards. -/
def climbStep (startGrade : ℚ) (i : ℕ) (st : ClimbState) (g : Option ℚ)
    (dt : ℚ) : ClimbState :=
  match g with
  | none =>
      if st.in_seg then
        if gapMaxDistanceM < st.gap_m + stepM ∨ gapMaxTimeS < st.gap_t + dt then
          { st with
            segments := if st.seg_start < st.last_ok then
                st.segments ++ [(st.seg_start, st.last_ok)] else st.segments,
            in_seg := false, start_run_m := 0,
            gap_m := st.gap_m + stepM, gap_t := st.gap_t + dt }
        else
          { st with gap_m := st.gap_m + stepM, gap_t := st.gap_t + dt }
      else
        { st with start_run_m := 0 }
  | some g =>
      if st.in_seg = false then
        if startGrade ≤ g then
          if startConfirmDistanceM ≤ st.start_run_m + stepM then
            { st with
              in_seg := true, start_run_m := st.start_run_m + stepM,
              seg_start :=
                (i + 1 - (pyRound ((st.start_run_m + stepM) / stepM)).toNat)
                  - lagPts,
              last_ok := i, gap_m := 0, gap_t := 0, downhill_m := 0,
              downhill_start := i }
          else { st with start_run_m := st.start_run_m + stepM }
        else { st with start_run_m := 0 }
      else
        if stopDownDistanceM ≤
            (if g ≤ stopDownGradePercent then st.downhill_m + stepM else 0) then
          { st with
            segments := if st.seg_start <
                  (if g ≤ stopDownGradePercent ∧ st.downhill_m = 0 then i
                    else st.downhill_start) - 1 then
                st.segments ++ [(st.seg_start,
                  (if g ≤ stopDownGradePercent ∧ st.downhill_m = 0 then i
                    else st.downhill_start) - 1)]
              else st.segments,
            in_seg := false, start_run_m := 0, gap_m := 0, gap_t := 0,
            downhill_m := 0,
            downhill_start :=
              if g ≤ stopDownGradePercent ∧ st.downhill_m = 0 then i
                else st.downhill_start }
        else if continueGradePercent ≤ g then
          { st with
            gap_m := 0, gap_t := 0, last_ok := i,
            downhill_m :=
              if g ≤ stopDownGradePercent then st.downhill_m + stepM else 0,
            downhill_start :=
              if g ≤ stopDownGradePercent ∧ st.downhill_m = 0 then i
                else st.downhill_start }
        else if gapGradePercent ≤ g then
          { st with
            gap_m := st.gap_m + stepM, gap_t := st.gap_t + dt,
            last_ok := i,
            downhill_m :=
              if g ≤ stopDownGradePercent then st.downhill_m + stepM else 0,
            downhill_start :=
              if g ≤ stopDownGradePercent ∧ st.downhill_m = 0 then i
                else st.downhill_start }
        else
          if gapMaxDistanceM < st.gap_m + stepM ∨ gapMaxTimeS < st.gap_t + dt then
            { st with
              segments := if st.seg_start < st.last_ok then
                  st.segments ++ [(st.seg_start, st.last_ok)] else st.segments,
              in_seg := false, start_run_m := 0, gap_m := 0, gap_t := 0,
              downhill_m := 0,
              downhill_start :=
                if g ≤ stopDownGradePercent ∧ st.downhill_m = 0 then i
                  else st.downhill_start }
          else
            { st with
              gap_m := st.gap_m + stepM, gap_t := st.gap_t + dt,
              downhill_m :=
                if g ≤ stopDownGradePercent then st.downhill_m + stepM else 0,
              downhill_start :=
                if g ≤ stopDownGradePercent ∧ st.downhill_m = 0 then i
                  else st.downhill_start }

/-- The loop over all grid points, threading the index. -/
def runClimbGo (startGrade : ℚ) : ℕ → ClimbState → List (Option ℚ × ℚ) →
    ClimbState
  | _, st, [] => st
  | i, st, (g, dt) :: rest =>
      runClimbGo startGrade (i + 1) (climbStep startGrade i st g dt) rest

def initClimbState : ClimbState :=
  { segments := [], in_seg := false, seg_start := 0, start_run_m := 0,
    gap_m := 0, gap_t := 0, downhill_m := 0, last_ok := 0, downhill_start := 0 }

/-- The machine over a grade grid and time grid (per-point deltas from
`diffs0`), plus the final `if in_seg` flush. -/
def climbSegments (startGrade : ℚ) (grades : List (Option ℚ))
    (times : List ℚ) : List (ℕ × ℕ) :=
  let fin := runClimbGo startGrade 0 initClimbState (grades.zip (diffs0 times))
  if fin.in_seg ∧ fin.seg_start < fin.last_ok then
    fin.segments ++ [(fin.seg_start, fin.last_ok)]
  else fin.segments

end CourseScope

namespace CourseScope

/-- One output item of `compute_climbs` (NaN-able fields as `Option`). -/
structure ClimbRecord where
  start_idx : ℕ
  end_idx : ℕ
  distance_km : ℚ
  elevation_gain_m : ℚ
  avg_grade_percent : Option ℚ
  vam_m_h : Option ℚ
  pace_s_per_km : Option ℚ
  distance_m_end : ℚ
  deriving DecidableEq

/-- `np.searchsorted(a, x, side="left")` on a sorted array: the first index
whose value is `≥ x` (the array length when none is). -/
def searchsortedLeft (l : List ℚ) (x : ℚ) : ℕ :=
  l.findIdx (fun v => x ≤ v)

/-- `np.searchsorted(a, x, side="right")`: the first index whose value is
`> x`. -/
def searchsortedRight (l : List ℚ) (x : ℚ) : ℕ :=
  l.findIdx (fun v => x < v)

/-- `np.median` of a nonempty list: middle of the sorted values, or the mean
of the two middle values for even length. -/
def medianQ (l : List ℚ) : ℚ :=
  if l.length % 2 = 1 then (l.insertionSort (· ≤ ·)).getD (l.length / 2) 0
  else ((l.insertionSort (· ≤ ·)).getD (l.length / 2 - 1) 0
    + (l.insertionSort (· ≤ ·)).getD (l.length / 2) 0) / 2

/-- `np.clip(np.diff(seg_elev), 0, None).sum()`: total positive elevation
change over consecutive points. -/
def posGain (l : List ℚ) : ℚ :=
  ((l.zip l.tail).map (fun p => max 0 (p.2 - p.1))).sum

/-- The per-segment record builder of `compute_climbs` (lines 1400–1441),
with the guard cascade; `none` models a `continue`d (rejected) segment.
Defaults `min_distance_m = 150`, `min_duration_s = 45`, `min_gain_m = 15`. -/
def buildRecord (dist_arr time_arr : List ℚ) (pace_arr : List (Option ℚ))
    (elev_smooth grid : List ℚ) (seg : ℕ × ℕ) : Option ClimbRecord :=
  if grid.getD seg.2 0 ≤ grid.getD seg.1 0 then none
  else
    let start_idx := min (searchsortedLeft dist_arr (grid.getD seg.1 0))
      (dist_arr.length - 1)
    let end_idx := min (searchsortedRight dist_arr (grid.getD seg.2 0) - 1)
      (dist_arr.length - 1)
    if end_idx ≤ start_idx then none
    else
      if dist_arr.getD end_idx 0 - dist_arr.getD start_idx 0 < minDistanceM then
        none
      else
        if time_arr.getD end_idx 0 - time_arr.getD start_idx 0 < minDurationS then
          none
        else
          if ((elev_smooth.take (seg.2 + 1)).drop seg.1).length < 2 then none
          else
            if posGain ((elev_smooth.take (seg.2 + 1)).drop seg.1) < minGainM then
              none
            else
              some
                { start_idx := start_idx, end_idx := end_idx,
                  distance_km :=
                    (dist_arr.getD end_idx 0 - dist_arr.getD start_idx 0) / 1000,
                  elevation_gain_m :=
                    posGain ((elev_smooth.take (seg.2 + 1)).drop seg.1),
                  avg_grade_percent :=
                    if 0 < dist_arr.getD end_idx 0 - dist_arr.getD start_idx 0 then
                      some (posGain ((elev_smooth.take (seg.2 + 1)).drop seg.1)
                        / (dist_arr.getD end_idx 0 - dist_arr.getD start_idx 0)
                        * 100)
                    else none,
                  vam_m_h :=
                    if 0 < time_arr.getD end_idx 0 - time_arr.getD start_idx 0 then
                      some (posGain ((elev_smooth.take (seg.2 + 1)).drop seg.1)
                        / (time_arr.getD end_idx 0 - time_arr.getD start_idx 0)
                        * 3600)
                    else none,
                  pace_s_per_km :=
                    if ((pace_arr.take (end_idx + 1)).drop start_idx).filterMap
                        (fun p => p.bind (fun v => if 0 < v then some v else none))
                        = [] then none
                    else some (medianQ
                      (((pace_arr.take (end_idx + 1)).drop start_idx).filterMap
                        (fun p => p.bind
                          (fun v => if 0 < v then some v else none)))),
                  distance_m_end := dist_arr.getD end_idx 0 }

/-- The deterministic output order:
`sorted(key = (-elevation_gain_m, start_idx))`. -/
def climbKeyLE (a b : ClimbRecord) : Prop :=
  b.elevation_gain_m < a.elevation_gain_m ∨
    (a.elevation_gain_m = b.elevation_gain_m ∧ a.start_idx ≤ b.start_idx)

instance : DecidableRel climbKeyLE := fun a b =>
  inferInstanceAs (Decidable (b.elevation_gain_m < a.elevation_gain_m ∨
    (a.elevation_gain_m = b.elevation_gain_m ∧ a.start_idx ≤ b.start_idx)))

instance : IsTotal ClimbRecord climbKeyLE :=
  ⟨fun a b => by
    rcases lt_trichotomy a.elevation_gain_m b.elevation_gain_m with h | h | h
    · exact Or.inr (Or.inl h)
    · rcases Nat.le_total a.start_idx b.start_idx with h2 | h2
      · exact Or.inl (Or.inr ⟨h, h2⟩)
      · exact Or.inr (Or.inr ⟨h.symm, h2⟩)
    · exact Or.inl (Or.inl h)⟩

instance : IsTrans ClimbRecord climbKeyLE :=
  ⟨fun a b c hab hbc => by
    rcases hab with h1 | ⟨h1, h1'⟩ <;> rcases hbc with h2 | ⟨h2, h2'⟩
    · exact Or.inl (lt_trans h2 h1)
    · exact Or.inl (h2 ▸ h1)
    · exact Or.inl (h1 ▸ h2)
    · exact Or.inr ⟨h1.trans h2, h1'.trans h2'⟩⟩

/-- Rolling mean with a centered window and `min_periods = 1`
(`Series.rolling(window=w, center=True, min_periods=1).mean()`). -/
def rollMeanC (w : ℕ) (l : List ℚ) : List ℚ :=
  (List.range l.length).map (fun i =>
    ((l.take (min (i + w / 2) (l.length - 1) + 1)).drop (i - (w - 1) / 2)).sum
      / (min (i + w / 2) (l.length - 1) + 1 - (i - (w - 1) / 2)))

/-- `moving_time_s = delta_t.where((delta_t > 0) & (delta_d > 0.5), 0).cumsum()`. -/
def movingTimeOf (delta_t delta_d : List ℚ) : List ℚ :=
  cumsum (List.zipWith (fun dt dd => if 0 < dt ∧ 1/2 < dd then dt else (0 : ℚ))
    delta_t delta_d)

/-- `compute_climbs` with the default tunables and `grade_series = None`
(inputs are the required columns, numeric coercion/fill already applied;
`pace` keeps its NaN as `none`). -/
def computeClimbs (dist_raw delta_d delta_t elev : List ℚ)
    (pace : List (Option ℚ)) : List ClimbRecord :=
  if dist_raw.isEmpty then []
  else
    let dist := cummax dist_raw
    let distElev := groupLast (dist.zip elev)
    if distElev.length < 2 then []
    else
      let distTime := groupLast (dist.zip (movingTimeOf delta_t delta_d))
      let d0 := (distElev.headD (0, 0)).1
      let d1 := (distElev.getLastD (0, 0)).1
      if d1 ≤ d0 then []
      else
        let grid := (List.range ((((d1 + stepM - d0) / stepM).ceil).toNat)).map
          (fun k : ℕ => d0 + stepM * (k : ℚ))
        if grid.length < 2 then []
        else
          let elev_smooth := rollMeanC smoothPts
            (grid.map (fun x => interpQ x distElev))
          let grade_grid := (List.range grid.length).map (fun j =>
            if lagPts ≤ j then
              some ((elev_smooth.getD j 0 - elev_smooth.getD (j - lagPts) 0)
                / 50 * 100)
            else (none : Option ℚ))
          List.insertionSort climbKeyLE
            ((climbSegments 3 grade_grid
                (grid.map (fun x => interpQ x distTime))).filterMap
              (buildRecord dist (movingTimeOf delta_t delta_d) pace elev_smooth
                grid))

end CourseScope

namespace CourseScope

/-- C2 (amended): inside a climb, at a finite-grade grid point: a grade
`≥ 1 %` resets the pending gap accumulators and confirms the point; a grade
in `[0.2 %, 1 %)` extends the tolerated gap *and still confirms the point,
and the gap limits are not checked there* — the climb continues no matter how
large the accumulated gap is; only at a point with grade `< 0.2 %` (or a
non-finite point) is the `120 m / 30 s` limit tested, ending the climb at the
last confirmed point when exceeded; a sustained descent (grade `≤ −1 %` for
`≥ 30 m`) ends the climb, backdated to just before the descent began. -/
theorem climb_gap_branch_behaviour (startGrade : ℚ) (st : ClimbState) (i : ℕ)
    (g dt : ℚ) (hin : st.in_seg = true) :
    (1 ≤ g →
      climbStep startGrade i st (some g) dt =
        { st with gap_m := 0, gap_t := 0, last_ok := i, downhill_m := 0 }) ∧
    (1/5 ≤ g → g < 1 →
      climbStep startGrade i st (some g) dt =
        { st with gap_m := st.gap_m + 5, gap_t := st.gap_t + dt, last_ok := i,
                  downhill_m := 0 }) ∧
    (g < 1/5 → (g ≤ -1 → st.downhill_m + 5 < 30) →
      (120 < st.gap_m + 5 ∨ 30 < st.gap_t + dt) →
      (climbStep startGrade i st (some g) dt).in_seg = false ∧
      (climbStep startGrade i st (some g) dt).segments =
        (if st.seg_start < st.last_ok then
          st.segments ++ [(st.seg_start, st.last_ok)] else st.segments)) ∧
    (g ≤ -1 → 30 ≤ st.downhill_m + 5 →
      (climbStep startGrade i st (some g) dt).in_seg = false ∧
      (climbStep startGrade i st (some g) dt).segments =
        (if st.seg_start <
            (if st.downhill_m = 0 then i else st.downhill_start) - 1 then
          st.segments ++ [(st.seg_start,
            (if st.downhill_m = 0 then i else st.downhill_start) - 1)]
        else st.segments)) := by
  refine ⟨?_, ?_, ?_, ?_⟩
  · intro h1
    rw [climbStep]
    rw [if_neg (by rw [hin]; simp)]
    rw [if_neg (show ¬(g ≤ stopDownGradePercent) by
      rw [stopDownGradePercent]; linarith)]
    rw [if_neg (show ¬(stopDownDistanceM ≤ (0 : ℚ)) by
      rw [stopDownDistanceM]; norm_num)]
    rw [if_pos (show continueGradePercent ≤ g by rw [continueGradePercent]; exact h1)]
    rw [if_neg (show ¬(g ≤ stopDownGradePercent ∧ st.downhill_m = 0) by
      rintro ⟨hc, -⟩; rw [stopDownGradePercent] at hc; linarith)]
  · intro h1 h2
    rw [climbStep]
    rw [if_neg (by rw [hin]; simp)]
    rw [if_neg (show ¬(g ≤ stopDownGradePercent) by
      rw [stopDownGradePercent]; linarith)]
    rw [if_neg (show ¬(stopDownDistanceM ≤ (0 : ℚ)) by
      rw [stopDownDistanceM]; norm_num)]
    rw [if_neg (show ¬(continueGradePercent ≤ g) by
      rw [continueGradePercent]; linarith)]
    rw [if_pos (show gapGradePercent ≤ g by rw [gapGradePercent]; exact h1)]
    rw [if_neg (show ¬(g ≤ stopDownGradePercent ∧ st.downhill_m = 0) by
      rintro ⟨hc, -⟩; rw [stopDownGradePercent] at hc; linarith)]
    rw [stepM]
  · intro h1 h2 h3
    rw [climbStep]
    rw [if_neg (by rw [hin]; simp)]
    have hdm : ¬(stopDownDistanceM ≤
        (if g ≤ stopDownGradePercent then st.downhill_m + stepM else 0)) := by
      rw [stopDownDistanceM, stepM, stopDownGradePercent]
      by_cases hg : g ≤ -1
      · rw [if_pos hg]
        have := h2 hg
        linarith
      · rw [if_neg hg]; norm_num
    rw [if_neg hdm]
    rw [if_neg (show ¬(continueGradePercent ≤ g) by
      rw [continueGradePercent]; linarith)]
    rw [if_neg (show ¬(gapGradePercent ≤ g) by
      rw [gapGradePercent]; linarith)]
    rw [if_pos (show gapMaxDistanceM < st.gap_m + stepM ∨
        gapMaxTimeS < st.gap_t + dt by
      rw [gapMaxDistanceM, gapMaxTimeS, stepM]; exact h3)]
    exact ⟨rfl, rfl⟩
  · intro h1 h2
    rw [climbStep]
    rw [if_neg (by rw [hin]; simp)]
    rw [if_pos (show stopDownDistanceM ≤
        (if g ≤ stopDownGradePercent then st.downhill_m + stepM else 0) by
      rw [stopDownDistanceM, stepM, stopDownGradePercent, if_pos h1]
      exact h2)]
    have hcond : (if g ≤ stopDownGradePercent ∧ st.downhill_m = 0 then i
          else st.downhill_start) =
        (if st.downhill_m = 0 then i else st.downhill_start) := by
      by_cases hd : st.downhill_m = 0
      · rw [if_pos ⟨h1, hd⟩, if_pos hd]
      · rw [if_neg (by rintro ⟨-, hdd⟩; exact hd hdd), if_neg hd]
    constructor
    · rfl
    · show (if st.seg_start <
          (if g ≤ stopDownGradePercent ∧ st.downhill_m = 0 then i
            else st.downhill_start) - 1 then
          st.segments ++ [(st.seg_start,
            (if g ≤ stopDownGradePercent ∧ st.downhill_m = 0 then i
              else st.downhill_start) - 1)]
        else st.segments) = _
      rw [hcond]

end CourseScope

namespace CourseScope

set_option maxHeartbeats 3200000 in
/-- C2 counterexample: after a confirmed climb start (four points at 3 %),
25 grid points at grade 0.5 % accumulate a gap of 125 m > 120 m, yet the
machine is still inside the climb (the gap limit is never tested at grades in
`[0.2 %, 1 %)`), and the final segment runs through the whole flat stretch
instead of ending at the point where the gap limit was exceeded. -/
theorem climb_gap_limit_counterexample :
    (runClimbGo 3 0 initClimbState
        (([some 3, some 3, some 3, some 3, some (1/2), some (1/2), some (1/2), some (1/2), some (1/2), some (1/2), some (1/2), some (1/2), some (1/2), some (1/2), some (1/2), some (1/2), some (1/2), some (1/2), some (1/2), some (1/2), some (1/2), some (1/2), some (1/2), some (1/2), some (1/2), some (1/2), some (1/2), some (1/2), some (1/2)] : List (Option ℚ)).zip
          (diffs0 ([0, 0, 0, 0, 0, 0, 0, 0, 0, 0, 0, 0, 0, 0, 0, 0, 0, 0, 0, 0, 0, 0, 0, 0, 0, 0, 0, 0, 0] : List ℚ)))).in_seg = true ∧
    (runClimbGo 3 0 initClimbState
        (([some 3, some 3, some 3, some 3, some (1/2), some (1/2), some (1/2), some (1/2), some (1/2), some (1/2), some (1/2), some (1/2), some (1/2), some (1/2), some (1/2), some (1/2), some (1/2), some (1/2), some (1/2), some (1/2), some (1/2), some (1/2), some (1/2), some (1/2), some (1/2), some (1/2), some (1/2), some (1/2), some (1/2)] : List (Option ℚ)).zip
          (diffs0 ([0, 0, 0, 0, 0, 0, 0, 0, 0, 0, 0, 0, 0, 0, 0, 0, 0, 0, 0, 0, 0, 0, 0, 0, 0, 0, 0, 0, 0] : List ℚ)))).gap_m = 125 ∧
    climbSegments 3 ([some 3, some 3, some 3, some 3, some (1/2), some (1/2), some (1/2), some (1/2), some (1/2), some (1/2), some (1/2), some (1/2), some (1/2), some (1/2), some (1/2), some (1/2), some (1/2), some (1/2), some (1/2), some (1/2), some (1/2), some (1/2), some (1/2), some (1/2), some (1/2), some (1/2), some (1/2), some (1/2), some (1/2)] : List (Option ℚ))
        ([0, 0, 0, 0, 0, 0, 0, 0, 0, 0, 0, 0, 0, 0, 0, 0, 0, 0, 0, 0, 0, 0, 0, 0, 0, 0, 0, 0, 0] : List ℚ) = [(0, 28)] := by
  refine ⟨?_, ?_, ?_⟩ <;>
    norm_num [climbSegments, runClimbGo, climbStep, initClimbState, diffs0,
      stepM, lagPts, pyRound, continueGradePercent, gapGradePercent,
      gapMaxDistanceM, gapMaxTimeS, stopDownGradePercent, stopDownDistanceM,
      startConfirmDistanceM, max_def, List.zip_cons_cons, List.zipWith_cons_cons,
      Int.toNat_ofNat]

/-- C2 witness: inside a climb with 118 m of accumulated gap, a 0.5 % point
adds 5 m and 7 s to the gap, confirms the point, and leaves the climb open. -/
theorem climb_gap_branch_behaviour_witness :
    climbStep 3 9 (ClimbState.mk [] true 0 20 118 0 0 3 0) (some (1/2)) 7 =
      ClimbState.mk [] true 0 20 123 7 0 9 0 := by
  have h := (climb_gap_branch_behaviour 3 (ClimbState.mk [] true 0 20 118 0 0 3 0)
      9 (1/2) 7 rfl).2.1 (by norm_num) (by norm_num)
  rw [h]
  norm_num [ClimbState.mk.injEq]

end CourseScope

namespace CourseScope

set_option maxHeartbeats 1600000 in
lemma buildRecord_bounds (dist_arr time_arr : List ℚ)
    (pace_arr : List (Option ℚ)) (elev_smooth grid : List ℚ) (seg : ℕ × ℕ)
    (r : ClimbRecord)
    (h : buildRecord dist_arr time_arr pace_arr elev_smooth grid seg = some r) :
    150 ≤ r.distance_km * 1000 ∧
    45 ≤ time_arr.getD r.end_idx 0 - time_arr.getD r.start_idx 0 ∧
    15 ≤ r.elevation_gain_m ∧ r.start_idx < r.end_idx := by
  simp only [buildRecord, minDistanceM, minDurationS, minGainM] at h
  split_ifs at h
  all_goals try exact Option.noConfusion h
  all_goals
    injection h with h'
    subst h'
    refine ⟨by dsimp only; linarith, by dsimp only; linarith,
      by dsimp only; linarith, by dsimp only; omega⟩

lemma mem_climb_output_bounds (dist_arr time_arr : List ℚ)
    (pace_arr : List (Option ℚ)) (elev_smooth grid : List ℚ)
    (segs : List (ℕ × ℕ)) (r : ClimbRecord)
    (hr : r ∈ List.insertionSort climbKeyLE
      (segs.filterMap (buildRecord dist_arr time_arr pace_arr elev_smooth grid))) :
    150 ≤ r.distance_km * 1000 ∧
    45 ≤ time_arr.getD r.end_idx 0 - time_arr.getD r.start_idx 0 ∧
    15 ≤ r.elevation_gain_m ∧ r.start_idx < r.end_idx := by
  rw [(List.perm_insertionSort climbKeyLE _).mem_iff] at hr
  obtain ⟨seg, -, heq⟩ := List.mem_filterMap.mp hr
  exact buildRecord_bounds dist_arr time_arr pace_arr elev_smooth grid seg r heq

/-- C8: every climb record produced by the record-building stage — and hence
every record returned by `computeClimbs` — covers at least 150 m of distance,
at least 45 s of moving time and at least 15 m of elevation gain, and the
returned list is ordered by descending elevation gain with ties broken by the
earlier start index. -/
theorem climbs_bounds_and_order :
    (∀ (dist_arr time_arr : List ℚ) (pace_arr : List (Option ℚ))
        (elev_smooth grid : List ℚ) (segs : List (ℕ × ℕ)) (r : ClimbRecord),
      r ∈ List.insertionSort climbKeyLE
          (segs.filterMap
            (buildRecord dist_arr time_arr pace_arr elev_smooth grid)) →
      150 ≤ r.distance_km * 1000 ∧
      45 ≤ time_arr.getD r.end_idx 0 - time_arr.getD r.start_idx 0 ∧
      15 ≤ r.elevation_gain_m ∧ r.start_idx < r.end_idx) ∧
    (∀ recs : List ClimbRecord,
      List.Pairwise climbKeyLE (List.insertionSort climbKeyLE recs)) ∧
    (∀ (dist_raw delta_d delta_t elev : List ℚ) (pace : List (Option ℚ))
        (r : ClimbRecord),
      r ∈ computeClimbs dist_raw delta_d delta_t elev pace →
      150 ≤ r.distance_km * 1000 ∧
      45 ≤ (movingTimeOf delta_t delta_d).getD r.end_idx 0
          - (movingTimeOf delta_t delta_d).getD r.start_idx 0 ∧
      15 ≤ r.elevation_gain_m ∧ r.start_idx < r.end_idx) ∧
    (∀ (dist_raw delta_d delta_t elev : List ℚ) (pace : List (Option ℚ)),
      List.Pairwise climbKeyLE (computeClimbs dist_raw delta_d delta_t elev pace)) := by
  refine ⟨?_, ?_, ?_, ?_⟩
  · intro dist_arr time_arr pace_arr elev_smooth grid segs r hr
    exact mem_climb_output_bounds dist_arr time_arr pace_arr elev_smooth grid
      segs r hr
  · intro recs
    exact List.sorted_insertionSort climbKeyLE recs
  · intro dist_raw delta_d delta_t elev pace r hr
    simp only [computeClimbs] at hr
    split_ifs at hr
    all_goals try exact absurd hr (List.not_mem_nil r)
    exact mem_climb_output_bounds _ _ _ _ _ _ r hr
  · intro dist_raw delta_d delta_t elev pace
    simp only [computeClimbs]
    split_ifs
    all_goals try exact List.Pairwise.nil
    exact List.sorted_insertionSort climbKeyLE _

end CourseScope

namespace CourseScope

set_option maxHeartbeats 1600000 in
/-- C8 witness: a single accepted 200 m / 50 s / 20 m-gain segment produces a
record meeting all three bounds. -/
theorem climbs_bounds_and_order_witness :
    150 ≤ (ClimbRecord.mk 0 1 (1/5) 20 (some 10) (some 1440) none 200).distance_km
        * 1000 ∧
    45 ≤ [(0 : ℚ), 50].getD
          (ClimbRecord.mk 0 1 (1/5) 20 (some 10) (some 1440) none 200).end_idx 0
        - [(0 : ℚ), 50].getD
          (ClimbRecord.mk 0 1 (1/5) 20 (some 10) (some 1440) none 200).start_idx 0 ∧
    15 ≤ (ClimbRecord.mk 0 1 (1/5) 20 (some 10) (some 1440) none 200).elevation_gain_m ∧
    (ClimbRecord.mk 0 1 (1/5) 20 (some 10) (some 1440) none 200).start_idx <
      (ClimbRecord.mk 0 1 (1/5) 20 (some 10) (some 1440) none 200).end_idx := by
  exact climbs_bounds_and_order.1 [0, 200] [0, 50] [none, none] [0, 20] [0, 200]
    [(0, 1)] (ClimbRecord.mk 0 1 (1/5) 20 (some 10) (some 1440) none 200)
    (by norm_num [buildRecord, searchsortedLeft, searchsortedRight, posGain,
      minDistanceM, minDurationS, minGainM, List.findIdx_cons, List.findIdx_nil,
      List.insertionSort, List.orderedInsert, List.filterMap_cons,
      ClimbRecord.mk.injEq])

end CourseScope

namespace CourseScope

/-! ## `metrics.py`: 1 Hz resampling, normalized power, IF, TSS, and the
empty-table guard of `compute_garmin_like_stats`.  Normalized power is an
irrational 4th root, so the embedding tracks its 4th power `np4 = NP⁴`;
`if4 = IF⁴` and `tss2 = TSS²` are the corresponding powers of the derived
metrics (rational whenever defined). -/

/-- `groupby(level=0).mean()` on an `x`-sorted list of `(x, y)` pairs. -/
def groupMeanGo (x : ℚ) (acc : List ℚ) : List (ℚ × ℚ) → List (ℚ × ℚ)
  | [] => [(x, acc.sum / (acc.length : ℚ))]
  | (x', y) :: rest =>
      if x' = x then groupMeanGo x (acc ++ [y]) rest
      else (x, acc.sum / (acc.length : ℚ)) :: groupMeanGo x' [y] rest

def groupMean : List (ℚ × ℚ) → List (ℚ × ℚ)
  | [] => []
  | (x, y) :: rest => groupMeanGo x [y] rest

/-- `Series.ffill(limit=n)`: forward fill, at most `n` consecutive misses. -/
def ffillGo (limit : ℕ) (last : Option ℚ) (cnt : ℕ) :
    List (Option ℚ) → List (Option ℚ)
  | [] => []
  | some x :: rest => some x :: ffillGo limit (some x) 0 rest
  | none :: rest =>
      match last with
      | some x =>
          if cnt < limit then some x :: ffillGo limit (some x) (cnt + 1) rest
          else none :: ffillGo limit last (cnt + 1) rest
      | none => none :: ffillGo limit none 0 rest

def ffillLimit (limit : ℕ) (l : List (Option ℚ)) : List (Option ℚ) :=
  ffillGo limit none 0 l

/-- `resample("1s").mean()` bucket list: one-second bins anchored at the
first index `e0`; bucket `k` averages the entries with
`⌊e - e0⌋ = k`, `none` when the bin is empty. -/
def bucketMeansGo (entries : List (ℚ × ℚ)) (e0 : ℚ) :
    ℕ → ℕ → List (Option ℚ)
  | 0, _ => []
  | n + 1, k =>
      (if (entries.filterMap
            (fun p => if ⌊p.1 - e0⌋ = (k : ℤ) then some p.2 else none)).isEmpty
        then none
        else some ((entries.filterMap
            (fun p => if ⌊p.1 - e0⌋ = (k : ℤ) then some p.2 else none)).sum
          / ((entries.filterMap
            (fun p => if ⌊p.1 - e0⌋ = (k : ℤ) then some p.2 else none)).length : ℚ)))
        :: bucketMeansGo entries e0 n (k + 1)

/-- `_resample_series_1hz(values, delta_time_s, mask, ffill_limit=5)`:
mask/clip the time deltas, take the valid (masked, advancing, finite)
samples indexed by elapsed time, average duplicate indices, bucket to 1 s
bins and forward-fill up to 5 s.  The redundant `s.empty` re-check of the
source is subsumed by the `< 2` guard. -/
def resample1hz (values : List (Option ℚ)) (delta_time_s : List ℚ)
    (mask : List Bool) : List (Option ℚ) :=
  let dts := List.zipWith
    (fun (m : Bool) (d : ℚ) => if m then (if 0 < d then d else 0) else 0)
    mask delta_time_s
  let entries := (mask.zip (values.zip (dts.zip (cumsum dts)))).filterMap
    (fun q =>
      match q with
      | (m, v, d, e) => if m ∧ 0 < d then v.map (fun x => (e, x)) else none)
  if entries.length < 2 then []
  else
    let s := groupMean (List.insertionSort (fun p q : ℚ × ℚ => p.1 ≤ q.1) entries)
    ffillLimit 5 (bucketMeansGo s ((s.headD (0, 0)).1)
      (((s.getLastD (0, 0)).1 - (s.headD (0, 0)).1).floor.toNat + 1) 0)

/-- The 30 s rolling means with `min_periods = 30`, `dropna()`ed: one value
per window of 30 consecutive defined seconds. -/
def rollingMean30 : List (Option ℚ) → List ℚ
  | [] => []
  | x :: rest =>
      (if (x :: rest).length < 30 then []
       else if (List.take 30 (x :: rest)).all (fun v => v.isSome) then
         [(fillna0 (List.take 30 (x :: rest))).sum / 30]
       else []) ++ rollingMean30 rest

/-- `_normalized_power_from_series` in 4th powers: `np4 = NP⁴`, `none` = NaN.
The finiteness test on `mean_fourth` is always true over `ℚ`. -/
def np4 (series : List (Option ℚ)) : Option ℚ :=
  if series.isEmpty then none
  else if series.countP (fun v => v.isSome) < 30 then none
  else if (rollingMean30 series).isEmpty then none
  else if ((rollingMean30 series).map (fun x => x^4)).sum
      / ((rollingMean30 series).length : ℚ) ≤ 0 then none
  else some (((rollingMean30 series).map (fun x => x^4)).sum
      / ((rollingMean30 series).length : ℚ))

/-- `intensity_factor = NP / ftp` when NP and ftp are defined and `ftp > 0`
(4th-power model: `IF⁴ = NP⁴ / ftp⁴`). -/
def if4 (p4 f : Option ℚ) : Option ℚ :=
  match p4, f with
  | some p, some fv => if 0 < fv then some (p / fv^4) else none
  | _, _ => none

/-- `tss = moving_time_s * NP * IF / (ftp * 3600) * 100` when NP, IF and ftp
are defined, `ftp > 0` and `moving_time_s > 0` (squared model; the
IF-definedness test collapses to `ftp > 0` once NP and ftp are present). -/
def tss2 (p4 f : Option ℚ) (moving : ℚ) : Option ℚ :=
  match p4, f with
  | some p, some fv =>
      if 0 < fv ∧ 0 < moving then
        some ((moving / 3600)^2 * 100^2 * (p / fv^4))
      else none
  | _, _ => none

/-- The early-return value of `compute_garmin_like_stats` on an empty table:
empty summary, all optional sections absent, empty pacing block. -/
structure GarminResult where
  summary : List (String × ℚ)
  heart_rate : Option Unit
  cadence : Option Unit
  power : Option Unit
  pace_zones : Option Unit
  running_dynamics : Option Unit
  training_load : Option Unit
  power_advanced : Option Unit
  pacing : List (String × ℚ)
  deriving DecidableEq

def emptyGarminResult : GarminResult :=
  { summary := [], heart_rate := none, cadence := none, power := none,
    pace_zones := none, running_dynamics := none, training_load := none,
    power_advanced := none, pacing := [] }

/-- The guard layer of `compute_garmin_like_stats`: on an empty table return
the neutral result; the (long) non-empty branch is abstracted as the
continuation `nonempty`. -/
def computeGarminLikeStats (nonempty : List (ℚ × ℚ) → GarminResult)
    (rows : List (ℚ × ℚ)) : GarminResult :=
  if rows.isEmpty then emptyGarminResult else nonempty rows

end CourseScope

namespace CourseScope

/-- C7 (amended, in powers): below 30 defined resampled seconds NP is
undefined; when NP is defined, `NP⁴` is the mean of the 4th powers of the
30 s rolling means and is strictly positive — NP is additionally undefined
whenever that mean is `≤ 0` (e.g. an all-zero power series), or when no
window of 30 consecutive seconds is fully defined, even with 30 or more
defined seconds; when NP and FTP are defined with `FTP > 0`,
`IF⁴ = NP⁴/FTP⁴` (i.e. `IF = NP/FTP`), and with moving time `> 0`,
`TSS² = (moving_s/3600)² · 100² · NP⁴/FTP⁴` (the square of
`moving_hours · NP · IF / FTP · 100`). -/
theorem normalized_power_model (series : List (Option ℚ)) (p4 f m : ℚ) :
    (series.countP (fun v => v.isSome) < 30 → np4 series = none) ∧
    (∀ v, np4 series = some v →
      0 < v ∧
      v = ((rollingMean30 series).map (fun x => x^4)).sum
          / ((rollingMean30 series).length : ℚ)) ∧
    (0 < f → if4 (some p4) (some f) = some (p4 / f^4)) ∧
    (0 < f → 0 < m →
      tss2 (some p4) (some f) m
        = some ((m / 3600)^2 * 100^2 * (p4 / f^4))) := by
  refine ⟨?_, ?_, ?_, ?_⟩
  · intro h
    rw [np4]
    by_cases he : series.isEmpty
    · rw [if_pos he]
    · rw [if_neg he, if_pos h]
  · intro v hv
    rw [np4] at hv
    split_ifs at hv with h1 h2 h3 h4
    all_goals try exact Option.noConfusion hv
    injection hv with hv'
    subst hv'
    exact ⟨not_le.mp h4, rfl⟩
  · intro hf
    simp only [if4]
    rw [if_pos hf]
  · intro hf hm
    simp only [tss2]
    rw [if_pos ⟨hf, hm⟩]

set_option maxHeartbeats 3200000 in
/-- C7 counterexample: seven masked zero-power samples 5 s apart resample to
31 defined seconds of zero power; the spec's 4th-root-of-mean formula gives
NP = 0 there, but the code's `mean_fourth <= 0` guard returns NaN although
the series has at least 30 defined seconds. -/
theorem normalized_power_zero_counterexample :
    np4 (resample1hz [some 0, some 0, some 0, some 0, some 0, some 0, some 0]
      [5, 5, 5, 5, 5, 5, 5] [true, true, true, true, true, true, true]) = none ∧
    30 ≤ (resample1hz [some 0, some 0, some 0, some 0, some 0, some 0, some 0]
      [5, 5, 5, 5, 5, 5, 5]
      [true, true, true, true, true, true, true]).countP (fun v => v.isSome) ∧
    ((rollingMean30 (resample1hz
        [some 0, some 0, some 0, some 0, some 0, some 0, some 0]
        [5, 5, 5, 5, 5, 5, 5]
        [true, true, true, true, true, true, true])).map (fun x => x^4)).sum
      / ((rollingMean30 (resample1hz
        [some 0, some 0, some 0, some 0, some 0, some 0, some 0]
        [5, 5, 5, 5, 5, 5, 5]
        [true, true, true, true, true, true, true])).length : ℚ) = 0 := by
  have hser : resample1hz
      [some 0, some 0, some 0, some 0, some 0, some 0, some 0]
      [5, 5, 5, 5, 5, 5, 5] [true, true, true, true, true, true, true]
      = ([some 0, some 0, some 0, some 0, some 0, some 0, some 0, some 0, some 0, some 0, some 0, some 0, some 0, some 0, some 0, some 0, some 0, some 0, some 0, some 0, some 0, some 0, some 0, some 0, some 0, some 0, some 0, some 0, some 0, some 0, some 0] : List (Option ℚ)) := by
    norm_num [resample1hz, cumsum, List.scanl, groupMean, groupMeanGo,
      ffillLimit, ffillGo, bucketMeansGo, List.insertionSort,
      List.orderedInsert, List.filterMap_cons, List.countP_cons]
  refine ⟨?_, ?_, ?_⟩ <;>
    rw [hser] <;>
    norm_num [np4, rollingMean30, fillna0, List.countP_cons, List.take_succ_cons]

end CourseScope

namespace CourseScope

set_option maxHeartbeats 1600000 in
/-- C7 witness: 30 defined seconds at 100 W give `NP⁴ = 100⁴`; with
`FTP = 200` and one hour of moving time, `IF⁴ = (1/2)⁴` and `TSS² = 25²`. -/
theorem normalized_power_model_witness :
    (0 < (100000000 : ℚ) ∧
      (100000000 : ℚ) =
        ((rollingMean30 ([some 100, some 100, some 100, some 100, some 100, some 100, some 100, some 100, some 100, some 100, some 100, some 100, some 100, some 100, some 100, some 100, some 100, some 100, some 100, some 100, some 100, some 100, some 100, some 100, some 100, some 100, some 100, some 100, some 100, some 100] : List (Option ℚ))).map
            (fun x => x^4)).sum
          / ((rollingMean30 ([some 100, some 100, some 100, some 100, some 100, some 100, some 100, some 100, some 100, some 100, some 100, some 100, some 100, some 100, some 100, some 100, some 100, some 100, some 100, some 100, some 100, some 100, some 100, some 100, some 100, some 100, some 100, some 100, some 100, some 100] : List (Option ℚ))).length : ℚ)) ∧
    if4 (some 100000000) (some 200) = some ((100000000 : ℚ) / 200^4) ∧
    tss2 (some 100000000) (some 200) 3600
      = some (((3600 : ℚ) / 3600)^2 * 100^2 * (100000000 / 200^4)) := by
  have h := normalized_power_model ([some 100, some 100, some 100, some 100, some 100, some 100, some 100, some 100, some 100, some 100, some 100, some 100, some 100, some 100, some 100, some 100, some 100, some 100, some 100, some 100, some 100, some 100, some 100, some 100, some 100, some 100, some 100, some 100, some 100, some 100] : List (Option ℚ))
    100000000 200 3600
  refine ⟨h.2.1 100000000 ?_, h.2.2.1 (by norm_num), h.2.2.2 (by norm_num) (by norm_num)⟩
  norm_num [np4, rollingMean30, fillna0, List.countP_cons]

/-- C9: empty inputs are neutral across the engine: `compute_splits` and
`compute_climbs` return empty tables on an empty activity, and
`compute_garmin_like_stats` short-circuits an empty table to the neutral
result — empty summary, every optional section absent, empty pacing — for
any continuation computing the non-empty branch. -/
theorem empty_inputs_neutral :
    (∀ splitKm : ℚ, computeSplits [] splitKm = []) ∧
    (∀ (delta_d delta_t elev : List ℚ) (pace : List (Option ℚ)),
      computeClimbs [] delta_d delta_t elev pace = []) ∧
    (∀ nonempty : List (ℚ × ℚ) → GarminResult,
      computeGarminLikeStats nonempty [] = emptyGarminResult) ∧
    emptyGarminResult.summary = [] ∧
    emptyGarminResult.heart_rate = none ∧
    emptyGarminResult.cadence = none ∧
    emptyGarminResult.power = none ∧
    emptyGarminResult.pace_zones = none ∧
    emptyGarminResult.running_dynamics = none ∧
    emptyGarminResult.training_load = none ∧
    emptyGarminResult.power_advanced = none ∧
    emptyGarminResult.pacing = [] := by
  refine ⟨fun splitKm => rfl, fun delta_d delta_t elev pace => rfl,
    fun nonempty => rfl, rfl, rfl, rfl, rfl, rfl, rfl, rfl, rfl, rfl⟩

end CourseScope
